import Mathlib

/-!
Verification of the mlist backend core (path guarding, privacy anchors,
sessions, rate limiting, range requests, content-disposition encoding).

The Rust source is shallowly embedded: strings are `String`/`List Char`,
`u64`/`u32` arithmetic uses `Nat` with explicit saturation where the code
saturates, fallible code returns `Except ApiError`, and the filesystem is an
abstract record of the primitives the code calls (`symlink_metadata`,
`metadata`, `canonicalize`, `read_to_string`, `read_dir`). Definitions follow
`src/backend/src/path_guard.rs`, `auth.rs`, `session.rs` and `handlers.rs`.
-/

instance {ε α : Type} [DecidableEq ε] [DecidableEq α] : DecidableEq (Except ε α) := fun x y =>
  match x, y with
  | .ok a, .ok b =>
    if h : a = b then .isTrue (by rw [h]) else .isFalse (by intro hh; cases hh; exact h rfl)
  | .error a, .error b =>
    if h : a = b then .isTrue (by rw [h]) else .isFalse (by intro hh; cases hh; exact h rfl)
  | .ok _, .error _ => .isFalse nofun
  | .error _, .ok _ => .isFalse nofun

/-- Models Rust `char::is_whitespace` (the Unicode White_Space property). -/
def isRustWhitespace (c : Char) : Bool :=
  let n := c.toNat
  (0x09 ≤ n && n ≤ 0x0D) || n == 0x20 || n == 0x85 || n == 0xA0 || n == 0x1680 ||
  (0x2000 ≤ n && n ≤ 0x200A) || n == 0x2028 || n == 0x2029 || n == 0x202F ||
  n == 0x205F || n == 0x3000

/-- Models Rust `char::is_control` (the Unicode Cc category). -/
def isRustControl (c : Char) : Bool :=
  let n := c.toNat
  n ≤ 0x1F || n == 0x7F || (0x80 ≤ n && n ≤ 0x9F)

/-- Left half of Rust `str::trim`. -/
def rustTrimLeft (l : List Char) : List Char :=
  l.dropWhile isRustWhitespace

/-- Right half of Rust `str::trim`. -/
def rustTrimRight (l : List Char) : List Char :=
  (l.reverse.dropWhile isRustWhitespace).reverse

/-- Models Rust `str::trim` on the character list of a string. -/
def rustTrim (l : List Char) : List Char :=
  rustTrimRight (rustTrimLeft l)

/-- `str::trim` lifted back to `String`. -/
def rustTrimString (s : String) : String :=
  String.mk (rustTrim s.data)

/-- Largest `u64` value; `u64` arithmetic is modelled as `Nat` with explicit
saturation where the Rust code uses `saturating_add`. -/
def u64Max : Nat := 2 ^ 64 - 1

/-- Models `u64::saturating_add`. -/
def satAdd64 (a b : Nat) : Nat := min (a + b) u64Max

/-- Largest `u32` value. -/
def u32Max : Nat := 2 ^ 32 - 1

/-- Models `u32::saturating_add`. -/
def satAdd32 (a b : Nat) : Nat := min (a + b) u32Max

/-- The error type of `errors.rs` (`ApiError`), carrying the constructor used
(which fixes the HTTP status and `code` string) and the message. -/
inductive ApiError where
  | bad_request (message : String)
  | unauthorized (message : String)
  | auth_required
  | forbidden (message : String)
  | not_found (message : String)
  | invalid_range (message : String)
  | rate_limited (message : String)
  | internal (message : String)
deriving DecidableEq, Repr

/-- True exactly for the `NOT_FOUND` error class. -/
def ApiError.isNotFound : ApiError → Bool
  | .not_found _ => true
  | _ => false

/-- IO error kinds distinguished by `ApiError::from_io`. -/
inductive IOErr where
  | notFound
  | permissionDenied
  | other
deriving DecidableEq, Repr

/-- Models `ApiError::from_io`. -/
def fromIo (err : IOErr) (context : String) : ApiError :=
  match err with
  | .notFound => .not_found (context ++ " not found.")
  | .permissionDenied => .forbidden ("Permission denied while accessing " ++ context ++ ".")
  | .other => .internal ("Failed to access " ++ context ++ ".")

/-! ## path_guard.rs -/

/-- `PRIVATE_MARKER_FILE`. -/
def PRIVATE_MARKER_FILE : String := ".private"

/-- `PASSWORD_MARKER_FILE`. -/
def PASSWORD_MARKER_FILE : String := ".password"

/-- Models `is_private_marker_name`. -/
def is_private_marker_name (name : String) : Bool :=
  name == PRIVATE_MARKER_FILE || name == PASSWORD_MARKER_FILE

/-- Models Rust `str::split('/')` on a character list (structurally recursive,
always returns at least one segment, exactly like the Rust iterator). -/
def splitOnSlash : List Char → List (List Char)
  | [] => [[]]
  | c :: rest =>
    match splitOnSlash rest with
    | seg :: segs => if c = '/' then [] :: seg :: segs else (c :: seg) :: segs
    | [] => [[]]

/-- Models `Vec::join("/")` on character-list segments. -/
def joinSegs : List (List Char) → List Char
  | [] => []
  | [seg] => seg
  | seg :: rest => seg ++ '/' :: joinSegs rest

/-- A segment rejected by `normalize_relative_path`: empty, `.`, `..`, or
containing a control character. -/
def badSeg (seg : List Char) : Bool :=
  seg = [] || seg = ['.'] || seg = ['.', '.'] || seg.any isRustControl

/-- The per-segment loop of `normalize_relative_path`: returns the collected
segments, or the first error. -/
def checkSegments : List (List Char) → Except ApiError (List (List Char))
  | [] => .ok []
  | seg :: rest =>
    if seg = [] || seg = ['.'] || seg = ['.', '.'] then
      .error (ApiError.bad_request "Invalid path segment.")
    else if seg.any isRustControl then
      .error (ApiError.bad_request "Path contains disallowed control characters.")
    else
      match checkSegments rest with
      | .error e => .error e
      | .ok segs => .ok (seg :: segs)

/-- Models `normalize_relative_path` over the character list of the raw input
(`None` models an absent `path` parameter). -/
def normalize_relative_path (raw : Option (List Char)) : Except ApiError (List Char) :=
  let path := rustTrim (raw.getD [])
  if path = [] || path = ['/'] then .ok []
  else if path.head? = some '/' then .error (ApiError.bad_request "Path must be relative.")
  else if path.contains '\\' then
    .error (ApiError.bad_request "Backslash is not allowed in path.")
  else
    match checkSegments (splitOnSlash path) with
    | .error e => .error e
    | .ok segs => .ok (joinSegs segs)

/-- Rust `str::split('/')` producing `String` components. -/
def splitSlashStr (s : String) : List String :=
  (splitOnSlash s.data).map String.mk

/-- Models `ensure_not_marker_path` (`path.rsplit('/').next()` is the last
piece of the slash-split). -/
def ensure_not_marker_path (path : String) : Except ApiError Unit :=
  match (splitSlashStr path).getLast? with
  | some name =>
    if is_private_marker_name name then .error (ApiError.not_found "File not found.")
    else .ok ()
  | none => .ok ()

/-! ## The filesystem model

Absolute filesystem paths are component lists (`List String`); the configured
root is such a list and `root.join(rel)` is list append. The filesystem itself
is an abstract record of the primitives the handlers call; every request
re-reads it, matching the no-caching design. -/

/-- File types distinguished by the code (`is_symlink` / `is_dir` / `is_file`;
`other` covers the remaining Unix file types). -/
inductive FileType where
  | file
  | dir
  | symlink
  | other
deriving DecidableEq, Repr

/-- The part of `std::fs::Metadata` the handlers read. -/
structure FileMeta where
  ftype : FileType
  len : Nat
  mtime : Option Nat
deriving DecidableEq, Repr

/-- The filesystem primitives used by the core, as one abstract record.
`symlinkMeta` models `tokio::fs::symlink_metadata` (no symlink following),
`statMeta` models `tokio::fs::metadata` (follows symlinks), `canon` models
`tokio::fs::canonicalize`, `readToString` models `tokio::fs::read_to_string`,
`readDir` models the entry names yielded by `tokio::fs::read_dir` in iteration
order, `openFile` models `tokio::fs::File::open`, and `mimeGuess` models
`mime_guess::from_path(..).first_or_octet_stream().essence_str()` applied to a
file name. -/
structure FS where
  symlinkMeta : List String → Except IOErr FileType
  statMeta : List String → Except IOErr FileMeta
  canon : List String → Except IOErr (List String)
  readToString : List String → Except IOErr String
  readDir : List String → Except IOErr (List String)
  openFile : List String → Except IOErr Unit
  mimeGuess : String → String

/-- Models `Path::starts_with` on component lists: `pathStartsWith p base` is
true when `base` is a leading run of `p`'s components. -/
def pathStartsWith (p base : List String) : Bool :=
  match base, p with
  | [], _ => true
  | _ :: _, [] => false
  | b :: bs, a :: rest => a == b && pathStartsWith rest bs

/-- `Vec::join("/")` on `String` components. -/
def joinSlashStr : List String → String
  | [] => ""
  | [part] => part
  | part :: rest => part ++ "/" ++ joinSlashStr rest

/-- A component that Rust `Path::components` would classify as
`Component::Normal` (our model stores components atomically, so the special
forms are the empty string, `.` and `..`). -/
def normalComponent (s : String) : Bool :=
  !(s == "" || s == "." || s == "..")

/-- Models `relative_string_from_root`: strip the root, require every remaining
component to be `Component::Normal`, rejoin with `/`. -/
def relative_string_from_root (root absolute_path : List String) : Except ApiError String :=
  if pathStartsWith absolute_path root then
    let stripped := absolute_path.drop root.length
    if stripped.all normalComponent then .ok (joinSlashStr stripped)
    else .error (ApiError.forbidden "Invalid path component.")
  else .error (ApiError.forbidden "Path is outside configured root directory.")

/-- The per-segment loop of `check_symlink_segments`: push each segment onto
the cursor and reject if `symlink_metadata` reports a symlink. -/
def walkSegments (fs : FS) : List String → List String → Except ApiError Unit
  | _, [] => .ok ()
  | cursor, seg :: rest =>
    match fs.symlinkMeta (cursor ++ [seg]) with
    | .error e => .error (fromIo e "path")
    | .ok t =>
      if t = FileType.symlink then .error (ApiError.forbidden "Symbolic links are not allowed.")
      else walkSegments fs (cursor ++ [seg]) rest

/-- Models `check_symlink_segments`. -/
def check_symlink_segments (fs : FS) (root : List String) (relative_path : String) :
    Except ApiError Unit :=
  if relative_path = "" then .ok ()
  else walkSegments fs root (splitSlashStr relative_path)

/-- Models `resolve_existing_path`. -/
def resolve_existing_path (fs : FS) (root : List String) (relative_path : String) :
    Except ApiError (List String) :=
  match check_symlink_segments fs root relative_path with
  | .error e => .error e
  | .ok _ =>
    let candidate := if relative_path = "" then root else root ++ splitSlashStr relative_path
    match fs.symlinkMeta candidate with
    | .error e => .error (fromIo e "path")
    | .ok candidateType =>
      if candidateType = FileType.symlink then
        .error (ApiError.forbidden "Symbolic links are not allowed.")
      else
        match fs.canon candidate with
        | .error e => .error (fromIo e "path")
        | .ok canonical =>
          if pathStartsWith canonical root then .ok canonical
          else .error (ApiError.forbidden "Path escapes configured root directory.")

/-! ## auth.rs -/

/-- `PrivateAnchor` from `auth.rs`; `marker_file` is always
`PASSWORD_MARKER_FILE` for anchors produced by `find_private_anchor`. -/
structure PrivateAnchor where
  scope_rel : String
  password : String
  marker_file : String
deriving DecidableEq, Repr

/-- Models `marker_exists`: `symlink_metadata` on `dir.join(marker_name)`;
missing → `false`, symlink or non-regular-file → `forbidden`, regular file →
`true`. -/
def marker_exists (fs : FS) (dir : List String) (marker_name : String) :
    Except ApiError Bool :=
  match fs.symlinkMeta (dir ++ [marker_name]) with
  | .error .notFound => .ok false
  | .error e => .error (fromIo e "marker file")
  | .ok FileType.symlink =>
    .error (ApiError.forbidden "Private marker file cannot be a symbolic link.")
  | .ok FileType.file => .ok true
  | .ok _ => .error (ApiError.forbidden "Private marker file must be a regular file.")

/-- Models `read_marker_password`: read and trim the marker file's contents
when the marker exists. -/
def read_marker_password (fs : FS) (dir : List String) (marker_name : String) :
    Except ApiError (Option String) :=
  match marker_exists fs dir marker_name with
  | .error e => .error e
  | .ok false => .ok none
  | .ok true =>
    match fs.readToString (dir ++ [marker_name]) with
    | .error e => .error (fromIo e "marker file")
    | .ok raw => .ok (some (rustTrimString raw))

/-- `Path::parent` on component lists: `none` for the filesystem root. -/
def pathParent (p : List String) : Option (List String) :=
  match p with
  | [] => none
  | _ => some p.dropLast

/-- Models `parent_within_root`. -/
def parent_within_root (current root : List String) : Except ApiError (List String) :=
  match pathParent current with
  | none => .error (ApiError.forbidden "Path is outside configured root directory.")
  | some parent =>
    if pathStartsWith parent root then .ok parent
    else .error (ApiError.forbidden "Path is outside configured root directory.")

/-- The upward walk of `find_private_anchor`. The Rust loop terminates because
each step replaces `current` with its parent; `fuel` (always called with
`current.length + 1`) makes that bound explicit, and the exhaustion branch is
unreachable. -/
def findAnchorLoop (fs : FS) (root : List String) : Nat → List String →
    Except ApiError (Option PrivateAnchor)
  | 0, _ => .error (ApiError.internal "unreachable: ancestor walk exceeded path depth")
  | fuel + 1, current =>
    match read_marker_password fs current PASSWORD_MARKER_FILE with
    | .error e => .error e
    | .ok (some password) =>
      match relative_string_from_root root current with
      | .error e => .error e
      | .ok scope =>
        .ok (some { scope_rel := scope, password := password,
                    marker_file := PASSWORD_MARKER_FILE })
    | .ok none =>
      if current = root then .ok none
      else
        match parent_within_root current root with
        | .error e => .error e
        | .ok parent => findAnchorLoop fs root fuel parent

/-- Models `find_private_anchor`. -/
def find_private_anchor (fs : FS) (root target_path : List String) (target_is_dir : Bool) :
    Except ApiError (Option PrivateAnchor) :=
  if !pathStartsWith target_path root then
    .error (ApiError.forbidden "Path is outside configured root directory.")
  else
    let start := if target_is_dir then target_path else (pathParent target_path).getD root
    findAnchorLoop fs root (start.length + 1) start

/-- Models `has_private_hide_marker`. -/
def has_private_hide_marker (fs : FS) (dir : List String) : Except ApiError Bool :=
  marker_exists fs dir PRIVATE_MARKER_FILE

/-! ## session.rs -/

/-- `SessionData`; the `BTreeSet<String>` of scopes is modelled as the list of
its members (insertion keeps it duplicate-free, so membership agrees). -/
structure SessionData where
  scopes : List String
  expires_at : Nat
deriving DecidableEq, Repr

/-- `BTreeSet::insert`. -/
def insertScope (scope : String) (scopes : List String) : List String :=
  if scopes.contains scope then scopes else scopes ++ [scope]

/-- The `HashMap<String, SessionData>` behind the store, as a function map. -/
def SessionMap : Type := String → Option SessionData

/-- Models `SessionStore::get_valid`: the returned option plus the map after
the lazy-expiry removal. -/
def get_valid (m : SessionMap) (sid : String) (now : Nat) :
    Option SessionData × SessionMap :=
  match m sid with
  | some session =>
    if session.expires_at > now then (some session, m)
    else (none, fun k => if k = sid then none else m k)
  | none => (none, m)

/-- The sweep at the top of `create_or_update` (`retain` on unexpired). -/
def sweepExpired (m : SessionMap) (now : Nat) : SessionMap :=
  fun k =>
    match m k with
    | some session => if session.expires_at > now then some session else none
    | none => none

/-- Models `SessionStore::create_or_update`. `fresh_id` stands for the
`Uuid::new_v4().simple().to_string()` the code mints when `current_sid` is
absent or no longer in the (swept) map. Returns the chosen id, the resulting
record, and the updated map. -/
def create_or_update (m : SessionMap) (current_sid : Option String) (scope : String)
    (ttl_seconds now : Nat) (fresh_id : String) : String × SessionData × SessionMap :=
  let swept := sweepExpired m now
  let session_id :=
    match current_sid with
    | some value => if (swept value).isSome then value else fresh_id
    | none => fresh_id
  let expires_at := satAdd64 now ttl_seconds
  let base := (swept session_id).getD { scopes := [], expires_at := expires_at }
  let updated : SessionData :=
    { scopes := insertScope scope base.scopes, expires_at := expires_at }
  (session_id, updated, fun k => if k = session_id then some updated else swept k)

/-- Models `SessionStore::remove`. -/
def sessionRemove (m : SessionMap) (sid : String) : SessionMap :=
  fun k => if k = sid then none else m k

/-- `LoginAttempt`. -/
structure LoginAttempt where
  failures : Nat
  blocked_until : Option Nat
deriving DecidableEq, Repr

/-- The `HashMap<String, LoginAttempt>` behind the limiter. -/
def AttemptMap : Type := String → Option LoginAttempt

/-- Models `LoginRateLimiter::blocked_until`: the returned deadline plus the
map after an expired block is cleared. -/
def blocked_until (m : AttemptMap) (key : String) (now : Nat) :
    Option Nat × AttemptMap :=
  match m key with
  | none => (none, m)
  | some entry =>
    match entry.blocked_until with
    | some until_ =>
      if until_ > now then (some until_, m)
      else (none, fun k => if k = key then
              some { failures := 0, blocked_until := none } else m k)
    | none => (none, m)

/-- The increment-and-maybe-block tail of `record_failure`, applied after any
expired block has been cleared. -/
def recordFailureStep (max_failures block_seconds now : Nat) (entry : LoginAttempt) :
    Option Nat × LoginAttempt :=
  let failures := satAdd32 entry.failures 1
  if failures ≥ max_failures then
    let until_ := satAdd64 now block_seconds
    (some until_, { failures := 0, blocked_until := some until_ })
  else
    (none, { failures := failures, blocked_until := entry.blocked_until })

/-- Models `LoginRateLimiter::record_failure` (the `entry` API's `or_insert`
default is `{failures: 0, blocked_until: None}`). -/
def record_failure (max_failures block_seconds : Nat) (m : AttemptMap) (key : String)
    (now : Nat) : Option Nat × AttemptMap :=
  let entry0 := (m key).getD { failures := 0, blocked_until := none }
  match entry0.blocked_until with
  | some until_ =>
    if until_ > now then (some until_, fun k => if k = key then some entry0 else m k)
    else
      let res := recordFailureStep max_failures block_seconds now
        { failures := 0, blocked_until := none }
      (res.1, fun k => if k = key then some res.2 else m k)
  | none =>
    let res := recordFailureStep max_failures block_seconds now entry0
    (res.1, fun k => if k = key then some res.2 else m k)

/-- Models `LoginRateLimiter::record_success`. -/
def record_success (m : AttemptMap) (key : String) : AttemptMap :=
  fun k => if k = key then none else m k

/-- `record_failure` applied once per element of `nows`, threading the map;
returns the per-call results in order and the final map. -/
def repeatedFailures (max_failures block_seconds : Nat) (m : AttemptMap) (key : String) :
    List Nat → List (Option Nat) × AttemptMap
  | [] => ([], m)
  | now :: rest =>
    let r := record_failure max_failures block_seconds m key now
    let rr := repeatedFailures max_failures block_seconds r.2 key rest
    (r.1 :: rr.1, rr.2)

/-! ## handlers.rs -/

/-- Models `is_scope_authorized`. -/
def is_scope_authorized (session : Option SessionData) (scope : String) : Bool :=
  match session with
  | some value => value.scopes.contains scope
  | none => false

/-- Models `file_name_is_marker` (`Path::file_name` of a component-list path is
its last component). -/
def file_name_is_marker (path : List String) : Bool :=
  match path.getLast? with
  | some name => is_private_marker_name name
  | none => false

/-- Models `ascii_filename_fallback`'s per-character replacement. -/
def fallbackChar (c : Char) : Char :=
  if c.toNat < 0x80 && !isRustControl c && c ≠ '"' && c ≠ '\\' then c
  else if isRustWhitespace c then ' '
  else '_'

/-- Models `ascii_filename_fallback`. -/
def ascii_filename_fallback (raw_name : List Char) : List Char :=
  let out := raw_name.map fallbackChar
  let trimmed := rustTrim out
  if trimmed = [] then "file".data else trimmed

/-- Models `escape_quoted_string` (the two sequential `replace` calls act
independently per character). -/
def escape_quoted_string (value : List Char) : List Char :=
  value.flatMap fun c =>
    if c = '\\' then ['\\', '\\'] else if c = '"' then ['\\', '"'] else [c]

/-- UTF-8 encoding of one character, as byte values (what Rust
`str::as_bytes` yields per character). -/
def utf8Bytes (c : Char) : List Nat :=
  let v := c.toNat
  if v < 0x80 then [v]
  else if v < 0x800 then [0xC0 + v / 0x40, 0x80 + v % 0x40]
  else if v < 0x10000 then
    [0xE0 + v / 0x1000, 0x80 + v / 0x40 % 0x40, 0x80 + v % 0x40]
  else
    [0xF0 + v / 0x40000, 0x80 + v / 0x1000 % 0x40, 0x80 + v / 0x40 % 0x40, 0x80 + v % 0x40]

/-- Models `is_rfc5987_attr_char`. -/
def is_rfc5987_attr_char (byte : Nat) : Bool :=
  (0x30 ≤ byte && byte ≤ 0x39) || (0x41 ≤ byte && byte ≤ 0x5A) ||
  (0x61 ≤ byte && byte ≤ 0x7A) || ("!#$&+-.^_`|~".data.map Char.toNat).contains byte

/-- Models `to_hex_upper`. -/
def to_hex_upper (nibble : Nat) : Char :=
  if nibble ≤ 9 then Char.ofNat (0x30 + nibble)
  else if nibble ≤ 15 then Char.ofNat (0x41 + (nibble - 10))
  else '0'

/-- The per-byte step of `rfc5987_encode`. -/
def rfc5987Byte (byte : Nat) : List Char :=
  if is_rfc5987_attr_char byte then [Char.ofNat byte]
  else ['%', to_hex_upper (byte / 16), to_hex_upper (byte % 16)]

/-- Models `rfc5987_encode` (iterates the UTF-8 bytes of the value). -/
def rfc5987_encode (value : List Char) : List Char :=
  (value.flatMap utf8Bytes).flatMap rfc5987Byte

/-- `Path::file_name().map(to_string_lossy)` with the handler's
`unwrap_or("file")`. -/
def fileNameOf (path : List String) : String :=
  match path.getLast? with
  | some name => name
  | none => "file"

/-- Models `content_disposition_inline`. -/
def content_disposition_inline (path : List String) : String :=
  let raw_name := (fileNameOf path).data
  let fallback := ascii_filename_fallback raw_name
  let escaped_fallback := escape_quoted_string fallback
  let encoded := rfc5987_encode raw_name
  "inline; filename=\"" ++ String.mk escaped_fallback ++ "\"; filename*=UTF-8''" ++
    String.mk encoded

/-- `ByteRange` (inclusive offsets; the Rust field `end` is named `stop` here
because `end` is a Lean keyword). -/
structure ByteRange where
  start : Nat
  stop : Nat
deriving DecidableEq, Repr

/-- `ByteRange::len`. -/
def byteRangeLen (r : ByteRange) : Nat :=
  r.stop - r.start + 1

/-- Models Rust `str::parse::<u64>`: optional leading `+`, one or more ASCII
digits, value within `u64` (Rust fails mid-fold on overflow; for all-digit
input that is equivalent to a final bound check). -/
def parseU64 (s : List Char) : Option Nat :=
  let digits := match s with
    | '+' :: rest => rest
    | _ => s
  if digits = [] then none
  else if digits.all Char.isDigit then
    let v := digits.foldl (fun acc c => acc * 10 + (c.toNat - 0x30)) 0
    if v ≤ u64Max then some v else none
  else none

/-- Models `str::strip_prefix` on character lists (`none` when the pattern is
not a leading run). -/
def stripPrefixChars : List Char → List Char → Option (List Char)
  | [], s => some s
  | _ :: _, [] => none
  | p :: ps, c :: cs => if c = p then stripPrefixChars ps cs else none

/-- Models `str::split_once('-')`. -/
def splitOnceDash : List Char → Option (List Char × List Char)
  | [] => none
  | c :: rest =>
    if c = '-' then some ([], rest)
    else (splitOnceDash rest).map (fun p => (c :: p.1, p.2))

/-- Models `parse_range_header`. -/
def parse_range_header (raw_header : List Char) (file_size : Nat) :
    Except ApiError ByteRange :=
  if file_size = 0 then
    .error (ApiError.invalid_range "Range request cannot be satisfied for an empty file.")
  else
    match stripPrefixChars "bytes=".data (rustTrim raw_header) with
    | none => .error (ApiError.invalid_range "Only bytes ranges are supported.")
    | some raw_range =>
      if raw_range.contains ',' then
        .error (ApiError.invalid_range "Multiple ranges are not supported.")
      else
        match splitOnceDash raw_range with
        | none => .error (ApiError.invalid_range "Malformed Range header.")
        | some (start_part, end_part) =>
          if start_part = [] then
            match parseU64 end_part with
            | none => .error (ApiError.invalid_range "Malformed suffix byte range.")
            | some suffix_len =>
              if suffix_len = 0 then
                .error (ApiError.invalid_range "Suffix byte range must be greater than zero.")
              else
                let read_len := min suffix_len file_size
                .ok { start := file_size - read_len, stop := file_size - 1 }
          else
            match parseU64 start_part with
            | none => .error (ApiError.invalid_range "Malformed start byte range.")
            | some start =>
              if start ≥ file_size then
                .error (ApiError.invalid_range "Range start is beyond end of file.")
              else
                match (if end_part = [] then some (file_size - 1) else parseU64 end_part) with
                | none => .error (ApiError.invalid_range "Malformed end byte range.")
                | some end0 =>
                  let end1 := if end0 ≥ file_size then file_size - 1 else end0
                  if end1 < start then
                    .error
                      (ApiError.invalid_range "Range end cannot be smaller than range start.")
                  else .ok { start := start, stop := end1 }

/-- `EntryKind`. -/
inductive EntryKind where
  | dir
  | file
deriving DecidableEq, Repr

/-- `ListEntry`. -/
structure ListEntry where
  name : String
  path : String
  kind : EntryKind
  size : Option Nat
  mtime : Option Nat
  mime : Option String
  requires_auth : Bool
  authorized : Bool
deriving DecidableEq, Repr

/-- `ListResponse`. -/
structure ListResponse where
  path : String
  entries : List ListEntry
  requires_auth : Bool
  authorized : Bool
deriving DecidableEq, Repr

/-- Models `str::to_lowercase` as used by the listing sort comparator (ASCII
range; the comparator only affects ordering, which no claim depends on). -/
def rustLowercase (s : String) : String :=
  String.mk (s.data.map fun c =>
    if 0x41 ≤ c.toNat && c.toNat ≤ 0x5A then Char.ofNat (c.toNat + 0x20) else c)

/-- The listing comparator of `list_handler` as a `≤` test: directories before
files, then case-insensitive name order. -/
def listEntryLe (a b : ListEntry) : Bool :=
  match a.kind, b.kind with
  | EntryKind.dir, EntryKind.file => true
  | EntryKind.file, EntryKind.dir => false
  | _, _ => decide (rustLowercase a.name ≤ rustLowercase b.name)

/-- Stable insertion used to model the stable `sort_by`. -/
def sortedInsert (e : ListEntry) : List ListEntry → List ListEntry
  | [] => [e]
  | x :: xs => if listEntryLe x e then x :: sortedInsert e xs else e :: x :: xs

/-- Models the stable `entries.sort_by(..)` of `list_handler`. -/
def sortEntries : List ListEntry → List ListEntry
  | [] => []
  | e :: rest => sortedInsert e (sortEntries rest)

/-- The `while let Some(entry) = read_dir.next_entry()` loop of `list_handler`,
iterating the directory's entry names in order. -/
def list_entries (fs : FS) (root : List String) (session : Option SessionData)
    (relative_path : String) (resolved : List String) :
    List String → Except ApiError (List ListEntry)
  | [] => .ok []
  | name :: rest =>
    if is_private_marker_name name then list_entries fs root session relative_path resolved rest
    else
      match fs.symlinkMeta (resolved ++ [name]) with
      | .error e => .error (fromIo e "directory entry")
      | .ok file_type =>
        if file_type = FileType.symlink then
          list_entries fs root session relative_path resolved rest
        else if file_type ≠ FileType.dir && file_type ≠ FileType.file then
          list_entries fs root session relative_path resolved rest
        else
          let entry_path :=
            if relative_path = "" then name else relative_path ++ "/" ++ name
          match resolve_existing_path fs root entry_path with
          | .error e => .error e
          | .ok resolved_entry =>
            match fs.statMeta resolved_entry with
            | .error e => .error (fromIo e "directory entry")
            | .ok entry_meta =>
              match
                (if file_type = FileType.dir then has_private_hide_marker fs resolved_entry
                 else .ok false) with
              | .error e => .error e
              | .ok hidden =>
                if hidden then list_entries fs root session relative_path resolved rest
                else
                  match find_private_anchor fs root resolved_entry
                      (file_type = FileType.dir) with
                  | .error e => .error e
                  | .ok entry_anchor =>
                    let requires_auth := entry_anchor.isSome
                    let authorized :=
                      match entry_anchor with
                      | some anchor => is_scope_authorized session anchor.scope_rel
                      | none => true
                    let mime :=
                      if file_type = FileType.file then some (fs.mimeGuess name) else none
                    let entry : ListEntry :=
                      { name := name, path := entry_path,
                        kind := if file_type = FileType.dir then EntryKind.dir
                                else EntryKind.file,
                        size := if file_type = FileType.file then some entry_meta.len
                                else none,
                        mtime := entry_meta.mtime, mime := mime,
                        requires_auth := requires_auth, authorized := authorized }
                    match list_entries fs root session relative_path resolved rest with
                    | .error e => .error e
                    | .ok entries => .ok (entry :: entries)

/-- Models `list_handler`; `session` is the result of
`current_session(&state, &jar)`. -/
def list_handler (fs : FS) (root : List String) (session : Option SessionData)
    (query_path : Option String) : Except ApiError ListResponse :=
  match normalize_relative_path (query_path.map String.data) with
  | .error e => .error e
  | .ok relChars =>
    let relative_path := String.mk relChars
    match ensure_not_marker_path relative_path with
    | .error e => .error e
    | .ok _ =>
      match resolve_existing_path fs root relative_path with
      | .error e => .error e
      | .ok resolved =>
        match fs.statMeta resolved with
        | .error e => .error (fromIo e "directory")
        | .ok metadata =>
          if metadata.ftype ≠ FileType.dir then
            .error (ApiError.bad_request "Path is not a directory.")
          else
            match find_private_anchor fs root resolved true with
            | .error e => .error e
            | .ok anchor =>
              if (match anchor with
                  | some private_anchor =>
                    !is_scope_authorized session private_anchor.scope_rel
                  | none => false) then
                .error ApiError.auth_required
              else
                match fs.readDir resolved with
                | .error e => .error (fromIo e "directory")
                | .ok names =>
                  match list_entries fs root session relative_path resolved names with
                  | .error e => .error e
                  | .ok entries =>
                    .ok { path := relative_path, entries := sortEntries entries,
                          requires_auth := anchor.isSome, authorized := true }

/-- The streaming file response: status, headers, and the byte window the
handler seeks to and takes (the body itself is a stream of exactly
`body_len` bytes from offset `body_start`). -/
structure FileResponse where
  status : Nat
  mime : String
  content_disposition : String
  content_length : Nat
  content_range : Option String
  body_start : Nat
  body_len : Nat
deriving DecidableEq, Repr

/-- The tail of `serve_file_response` after the auth check: open, parse any
range, seek and take. -/
def serve_file_body (fs : FS) (resolved : List String) (file_size : Nat)
    (range_header : Option String) : Except ApiError FileResponse :=
  match fs.openFile resolved with
  | .error e => .error (fromIo e "file")
  | .ok _ =>
    let mime := fs.mimeGuess (fileNameOf resolved)
    let content_disposition := content_disposition_inline resolved
    match (match range_header with
           | some value => (parse_range_header value.data file_size).map some
           | none => .ok none) with
    | .error e => .error e
    | .ok (some value) =>
      .ok { status := 206, mime := mime, content_disposition := content_disposition,
            content_length := byteRangeLen value,
            content_range := some ("bytes " ++ toString value.start ++ "-" ++
              toString value.stop ++ "/" ++ toString file_size),
            body_start := value.start, body_len := byteRangeLen value }
    | .ok none =>
      .ok { status := 200, mime := mime, content_disposition := content_disposition,
            content_length := file_size, content_range := none,
            body_start := 0, body_len := file_size }

/-- Models `serve_file_response`; `session` is the result of
`current_session`, `range_header` the `Range` header when present and valid
UTF-8. -/
def serve_file_response (fs : FS) (root : List String) (session : Option SessionData)
    (range_header : Option String) (relative_path : String) :
    Except ApiError FileResponse :=
  match ensure_not_marker_path relative_path with
  | .error e => .error e
  | .ok _ =>
    if relative_path = "" then .error (ApiError.bad_request "Path must reference a file.")
    else
      match resolve_existing_path fs root relative_path with
      | .error e => .error e
      | .ok resolved =>
        match fs.statMeta resolved with
        | .error e => .error (fromIo e "file")
        | .ok metadata =>
          if metadata.ftype ≠ FileType.file then
            .error (ApiError.bad_request "Path is not a file.")
          else if file_name_is_marker resolved then
            .error (ApiError.not_found "File not found.")
          else
            match find_private_anchor fs root resolved false with
            | .error e => .error e
            | .ok (some anchor) =>
              if !is_scope_authorized session anchor.scope_rel then
                .error ApiError.auth_required
              else serve_file_body fs resolved metadata.len range_header
            | .ok none => serve_file_body fs resolved metadata.len range_header

/-- Models `file_handler`. -/
def file_handler (fs : FS) (root : List String) (session : Option SessionData)
    (range_header : Option String) (query_path : Option String) :
    Except ApiError FileResponse :=
  match normalize_relative_path (query_path.map String.data) with
  | .error e => .error e
  | .ok relChars => serve_file_response fs root session range_header (String.mk relChars)

/-- Models `direct_file_handler`. -/
def direct_file_handler (fs : FS) (root : List String) (session : Option SessionData)
    (range_header : Option String) (raw_path : String) : Except ApiError FileResponse :=
  match normalize_relative_path (some raw_path.data) with
  | .error e => .error e
  | .ok relChars => serve_file_response fs root session range_header (String.mk relChars)

/-- `LoginRequest`. -/
structure LoginRequest where
  path : String
  password : String
deriving DecidableEq, Repr

/-- `LoginResponse` (the `expiresAt` RFC 3339 rendering is presentation only;
the underlying unix time is kept). -/
structure LoginResponseM where
  ok : Bool
  scope : String
  expires_at : Nat
deriving DecidableEq, Repr

/-- The outcome of `login_handler`: the handler result (session-cookie id and
response on success) together with the shared session and limiter maps as the
handler leaves them (the Rust stores are shared state, so they change even on
error paths). -/
structure LoginOutcome where
  result : Except ApiError (String × LoginResponseM)
  sessions : SessionMap
  limiter : AttemptMap

/-- Models `login_handler`; `current_sid` is the session cookie's value when
present, `fresh_id` the id minted if a new session is needed, `client_ip` the
peer address string. -/
def login_handler (fs : FS) (root : List String) (session_ttl_seconds max_failures
    block_seconds : Nat) (sessions : SessionMap) (limiter : AttemptMap) (now : Nat)
    (client_ip : String) (current_sid : Option String) (fresh_id : String)
    (payload : LoginRequest) : LoginOutcome :=
  match normalize_relative_path (some payload.path.data) with
  | .error e => ⟨.error e, sessions, limiter⟩
  | .ok relChars =>
    let relative_path := String.mk relChars
    match ensure_not_marker_path relative_path with
    | .error e => ⟨.error e, sessions, limiter⟩
    | .ok _ =>
      match resolve_existing_path fs root relative_path with
      | .error e => ⟨.error e, sessions, limiter⟩
      | .ok resolved =>
        match fs.statMeta resolved with
        | .error e => ⟨.error (fromIo e "path"), sessions, limiter⟩
        | .ok metadata =>
          match find_private_anchor fs root resolved (metadata.ftype = FileType.dir) with
          | .error e => ⟨.error e, sessions, limiter⟩
          | .ok none => ⟨.error (ApiError.bad_request "The target path is public."),
              sessions, limiter⟩
          | .ok (some anchor) =>
            let limiter_key := client_ip ++ ":" ++ anchor.scope_rel
            let blockedRes := blocked_until limiter limiter_key now
            match blockedRes.1 with
            | some until_ =>
              ⟨.error (ApiError.rate_limited ("Too many login failures. Retry in " ++
                  toString (until_ - now) ++ " seconds.")), sessions, blockedRes.2⟩
            | none =>
              if payload.password ≠ anchor.password then
                let failRes := record_failure max_failures block_seconds blockedRes.2
                  limiter_key now
                match failRes.1 with
                | some until_ =>
                  ⟨.error (ApiError.rate_limited ("Too many login failures. Retry in " ++
                      toString (until_ - now) ++ " seconds.")), sessions, failRes.2⟩
                | none => ⟨.error (ApiError.unauthorized "Invalid password."),
                    sessions, failRes.2⟩
              else
                let limiter2 := record_success blockedRes.2 limiter_key
                let created := create_or_update sessions current_sid anchor.scope_rel
                  session_ttl_seconds now fresh_id
                ⟨.ok (created.1,
                    { ok := true, scope := anchor.scope_rel,
                      expires_at := created.2.1.expires_at }),
                  created.2.2, limiter2⟩

/-! ## Range parsing claim -/

/-- Claim C7: range parsing rejects an empty file, a missing `bytes=` prefix,
a comma (multi-range), a zero suffix length, a start at or beyond the file
size, and a computed end below the start; a suffix `-N` yields the last
`min(N, fileSize)` bytes; `N-` and `N-M` yield start `N` with the end clamped
to `fileSize - 1`; every successful result satisfies
`start <= end < fileSize`; and the `fileSize = 100` examples hold. -/
theorem claim_C7 :
    (∀ h, parse_range_header h 0 =
      .error (ApiError.invalid_range "Range request cannot be satisfied for an empty file.")) ∧
    (∀ h fsz, fsz ≠ 0 → stripPrefixChars "bytes=".data (rustTrim h) = none →
      parse_range_header h fsz =
        .error (ApiError.invalid_range "Only bytes ranges are supported.")) ∧
    (∀ h fsz v, fsz ≠ 0 → stripPrefixChars "bytes=".data (rustTrim h) = some v →
      v.contains ',' = true →
      parse_range_header h fsz =
        .error (ApiError.invalid_range "Multiple ranges are not supported.")) ∧
    (∀ h fsz v b, fsz ≠ 0 → stripPrefixChars "bytes=".data (rustTrim h) = some v →
      v.contains ',' = false → splitOnceDash v = some ([], b) → parseU64 b = some 0 →
      parse_range_header h fsz =
        .error (ApiError.invalid_range "Suffix byte range must be greater than zero.")) ∧
    (∀ h fsz v b n, fsz ≠ 0 → stripPrefixChars "bytes=".data (rustTrim h) = some v →
      v.contains ',' = false → splitOnceDash v = some ([], b) → parseU64 b = some n →
      n ≠ 0 →
      parse_range_header h fsz = .ok { start := fsz - min n fsz, stop := fsz - 1 }) ∧
    (∀ h fsz v a b n, fsz ≠ 0 → stripPrefixChars "bytes=".data (rustTrim h) = some v →
      v.contains ',' = false → splitOnceDash v = some (a, b) → a ≠ [] →
      parseU64 a = some n → fsz ≤ n →
      parse_range_header h fsz =
        .error (ApiError.invalid_range "Range start is beyond end of file.")) ∧
    (∀ h fsz v a n, fsz ≠ 0 → stripPrefixChars "bytes=".data (rustTrim h) = some v →
      v.contains ',' = false → splitOnceDash v = some (a, []) → a ≠ [] →
      parseU64 a = some n → n < fsz →
      parse_range_header h fsz = .ok { start := n, stop := fsz - 1 }) ∧
    (∀ h fsz v a b n e0, fsz ≠ 0 → stripPrefixChars "bytes=".data (rustTrim h) = some v →
      v.contains ',' = false → splitOnceDash v = some (a, b) → a ≠ [] → b ≠ [] →
      parseU64 a = some n → n < fsz → parseU64 b = some e0 → n ≤ e0 →
      parse_range_header h fsz =
        .ok { start := n, stop := if fsz ≤ e0 then fsz - 1 else e0 }) ∧
    (∀ h fsz v a b n e0, fsz ≠ 0 → stripPrefixChars "bytes=".data (rustTrim h) = some v →
      v.contains ',' = false → splitOnceDash v = some (a, b) → a ≠ [] → b ≠ [] →
      parseU64 a = some n → n < fsz → parseU64 b = some e0 → e0 < n →
      parse_range_header h fsz =
        .error (ApiError.invalid_range "Range end cannot be smaller than range start.")) ∧
    (∀ h fsz r, parse_range_header h fsz = .ok r → r.start ≤ r.stop ∧ r.stop < fsz) ∧
    (parse_range_header "bytes=10-".data 100 = .ok { start := 10, stop := 99 } ∧
      byteRangeLen { start := 10, stop := 99 } = 90 ∧
      parse_range_header "bytes=-20".data 100 = .ok { start := 80, stop := 99 } ∧
      (parse_range_header "bytes=100-120".data 100).isOk = false ∧
      (parse_range_header "bytes=0-10,20-30".data 100).isOk = false) := by
  refine ⟨?_, ?_, ?_, ?_, ?_, ?_, ?_, ?_, ?_, ?_, by decide⟩
  · intro h
    unfold parse_range_header
    rw [if_pos rfl]
  · intro h fsz hfsz hstrip
    unfold parse_range_header
    rw [if_neg hfsz]
    simp only [hstrip]
  · intro h fsz v hfsz hstrip hcomma
    unfold parse_range_header
    rw [if_neg hfsz]
    simp only [hstrip, hcomma]
    rfl
  · intro h fsz v b hfsz hstrip hcomma hsplit hparse
    unfold parse_range_header
    rw [if_neg hfsz]
    simp only [hstrip, hcomma, hsplit, hparse]
    rfl
  · intro h fsz v b n hfsz hstrip hcomma hsplit hparse hn
    have hc : ',' ∉ v := by simpa using hcomma
    simp [parse_range_header, hfsz, hstrip, hc, hsplit, hparse, hn]
  · intro h fsz v a b n hfsz hstrip hcomma hsplit ha hparse hge
    have hc : ',' ∉ v := by simpa using hcomma
    simp [parse_range_header, hfsz, hstrip, hc, hsplit, ha, hparse,
      show fsz ≤ n from hge]
  · intro h fsz v a n hfsz hstrip hcomma hsplit ha hparse hlt
    have hc : ',' ∉ v := by simpa using hcomma
    simp [parse_range_header, hfsz, hstrip, hc, hsplit, ha, hparse,
      show ¬fsz ≤ n by omega, show ¬fsz ≤ fsz - 1 by omega, show ¬fsz - 1 < n by omega]
  · intro h fsz v a b n e0 hfsz hstrip hcomma hsplit ha hb hparse hlt hparseb hle
    have hc : ',' ∉ v := by simpa using hcomma
    by_cases hcl : fsz ≤ e0
    · simp [parse_range_header, hfsz, hstrip, hc, hsplit, ha, hb, hparse, hparseb,
        show ¬fsz ≤ n by omega, hcl, show ¬fsz - 1 < n by omega]
    · simp [parse_range_header, hfsz, hstrip, hc, hsplit, ha, hb, hparse, hparseb,
        show ¬fsz ≤ n by omega, hcl, show ¬e0 < n by omega]
  · intro h fsz v a b n e0 hfsz hstrip hcomma hsplit ha hb hparse hlt hparseb hgt
    have hc : ',' ∉ v := by simpa using hcomma
    simp [parse_range_header, hfsz, hstrip, hc, hsplit, ha, hb, hparse, hparseb,
      show ¬fsz ≤ n by omega, show ¬fsz ≤ e0 by omega, show e0 < n from hgt]
  · intro h fsz r hr
    unfold parse_range_header at hr
    by_cases h0 : fsz = 0
    · rw [if_pos h0] at hr; cases hr
    rw [if_neg h0] at hr
    cases hstrip : stripPrefixChars "bytes=".data (rustTrim h) with
    | none => simp only [hstrip] at hr; cases hr
    | some v =>
      simp only [hstrip] at hr
      by_cases hcomma : v.contains ',' = true
      · rw [if_pos hcomma] at hr; cases hr
      rw [if_neg hcomma] at hr
      cases hsplitv : splitOnceDash v with
      | none => simp only [hsplitv] at hr; cases hr
      | some ab =>
        obtain ⟨a, b⟩ := ab
        simp only [hsplitv] at hr
        by_cases haemp : a = []
        · rw [if_pos haemp] at hr
          cases hpb : parseU64 b with
          | none => simp only [hpb] at hr; cases hr
          | some n =>
            simp only [hpb] at hr
            by_cases hn : n = 0
            · rw [if_pos hn] at hr; cases hr
            rw [if_neg hn] at hr
            cases hr
            refine ⟨?_, ?_⟩ <;> simp <;> omega
        · rw [if_neg haemp] at hr
          cases hpa : parseU64 a with
          | none => simp only [hpa] at hr; cases hr
          | some n =>
            simp only [hpa] at hr
            by_cases hge : n ≥ fsz
            · rw [if_pos hge] at hr; cases hr
            rw [if_neg hge] at hr
            cases hpe : (if b = [] then some (fsz - 1) else parseU64 b) with
            | none => simp only [hpe] at hr; cases hr
            | some e0 =>
              simp only [hpe] at hr
              by_cases hcl : e0 ≥ fsz
              · rw [if_pos hcl] at hr
                by_cases hlt2 : fsz - 1 < n
                · rw [if_pos hlt2] at hr; cases hr
                rw [if_neg hlt2] at hr
                cases hr
                refine ⟨?_, ?_⟩ <;> simp <;> omega
              · rw [if_neg hcl] at hr
                by_cases hlt2 : e0 < n
                · rw [if_pos hlt2] at hr; cases hr
                rw [if_neg hlt2] at hr
                cases hr
                refine ⟨?_, ?_⟩ <;> simp <;> omega

/-- Claim C7 witness at concrete inputs. -/
theorem claim_C7_witness :
    parse_range_header "bytes=-20".data 100 =
      .ok { start := 100 - min 20 100, stop := 100 - 1 } ∧
    parse_range_header "bytes=5-7".data 100 =
      .ok { start := 5, stop := if 100 ≤ 7 then 100 - 1 else 7 } ∧
    ({ start := 10, stop := 99 } : ByteRange).start ≤
        ({ start := 10, stop := 99 } : ByteRange).stop ∧
      ({ start := 10, stop := 99 } : ByteRange).stop < 100 :=
  ⟨claim_C7.2.2.2.2.1 "bytes=-20".data 100 "-20".data "20".data 20 (by decide) (by decide)
      (by decide) (by decide) (by decide) (by decide),
    claim_C7.2.2.2.2.2.2.2.1 "bytes=5-7".data 100 "5-7".data "5".data "7".data 5 7
      (by decide) (by decide) (by decide) (by decide) (by decide) (by decide) (by decide)
      (by decide) (by decide) (by decide),
    claim_C7.2.2.2.2.2.2.2.2.2.1 "bytes=10-".data 100 { start := 10, stop := 99 }
      (by decide)⟩

/-! ## Anchor resolution claim -/

theorem pathStartsWith_append (root x : List String) :
    pathStartsWith (root ++ x) root = true := by
  induction root with
  | nil => simp [pathStartsWith]
  | cons b bs ih => simp [pathStartsWith, ih]

theorem relative_string_of_append (root x : List String)
    (h : ∀ s ∈ x, normalComponent s = true) :
    relative_string_from_root root (root ++ x) = .ok (joinSlashStr x) := by
  unfold relative_string_from_root
  rw [if_pos (pathStartsWith_append root x), List.drop_left,
    if_pos (by rw [List.all_eq_true]; exact h)]

/-- One walk step that finds the password marker as a regular file. -/
theorem findAnchorLoop_found (fs : FS) (root current : List String) (fuel : Nat)
    (raw scope : String)
    (hm : fs.symlinkMeta (current ++ [PASSWORD_MARKER_FILE]) = .ok FileType.file)
    (hr : fs.readToString (current ++ [PASSWORD_MARKER_FILE]) = .ok raw)
    (hs : relative_string_from_root root current = .ok scope) :
    findAnchorLoop fs root (fuel + 1) current =
      .ok (some { scope_rel := scope, password := rustTrimString raw,
                  marker_file := PASSWORD_MARKER_FILE }) := by
  have hread : read_marker_password fs current PASSWORD_MARKER_FILE =
      .ok (some (rustTrimString raw)) := by
    unfold read_marker_password marker_exists
    simp only [hm, hr]
  unfold findAnchorLoop
  simp only [hread, hs]

/-- One walk step past a directory with no password marker. -/
theorem findAnchorLoop_absent_step (fs : FS) (root current : List String) (fuel : Nat)
    (hm : fs.symlinkMeta (current ++ [PASSWORD_MARKER_FILE]) = .error IOErr.notFound)
    (hne_root : current ≠ root) (hne_nil : current ≠ [])
    (hpar : pathStartsWith current.dropLast root = true) :
    findAnchorLoop fs root (fuel + 1) current =
      findAnchorLoop fs root fuel current.dropLast := by
  have hread : read_marker_password fs current PASSWORD_MARKER_FILE = .ok none := by
    unfold read_marker_password marker_exists
    simp only [hm]
  have hparent : parent_within_root current root = .ok current.dropLast := by
    unfold parent_within_root pathParent
    cases current with
    | nil => exact absurd rfl hne_nil
    | cons c t =>
      simp only []
      rw [if_pos hpar]
  conv_lhs => unfold findAnchorLoop
  simp only [hread]
  rw [if_neg hne_root]
  simp only [hparent]

/-- The walk stops with no anchor at a root without a marker. -/
theorem findAnchorLoop_root_none (fs : FS) (root : List String) (fuel : Nat)
    (hm : fs.symlinkMeta (root ++ [PASSWORD_MARKER_FILE]) = .error IOErr.notFound) :
    findAnchorLoop fs root (fuel + 1) root = .ok none := by
  have hread : read_marker_password fs root PASSWORD_MARKER_FILE = .ok none := by
    unfold read_marker_password marker_exists
    simp only [hm]
  conv_lhs => unfold findAnchorLoop
  simp only [hread]
  simp

/-- The nearest-ancestor-wins walk: with the marker absent everywhere strictly
between the start and depth `k`, and a regular-file marker at depth `k`, the
walk returns the anchor at depth `k`. -/
theorem findAnchorLoop_nearest (fs : FS) (root : List String) :
    ∀ (rel : List String) (k : Nat) (raw : String), k ≤ rel.length →
      (∀ j, k < j → j ≤ rel.length →
        fs.symlinkMeta ((root ++ rel.take j) ++ [PASSWORD_MARKER_FILE]) =
          .error IOErr.notFound) →
      fs.symlinkMeta ((root ++ rel.take k) ++ [PASSWORD_MARKER_FILE]) = .ok FileType.file →
      fs.readToString ((root ++ rel.take k) ++ [PASSWORD_MARKER_FILE]) = .ok raw →
      (∀ s ∈ rel, normalComponent s = true) →
      findAnchorLoop fs root ((root ++ rel).length + 1) (root ++ rel) =
        .ok (some { scope_rel := joinSlashStr (rel.take k),
                    password := rustTrimString raw,
                    marker_file := PASSWORD_MARKER_FILE }) := by
  intro rel
  induction rel using List.reverseRecOn with
  | nil =>
    intro k raw hk habs hfile hread hnorm
    have hk0 : k = 0 := Nat.le_zero.mp hk
    subst hk0
    simp only [List.take_nil, List.append_nil] at hfile hread ⊢
    exact findAnchorLoop_found fs root root _ raw _ hfile hread
      (by simpa using relative_string_of_append root [] (by simp))
  | append_singleton rs a ih =>
    intro k raw hk habs hfile hread hnorm
    by_cases hk2 : k = (rs ++ [a]).length
    · subst hk2
      rw [List.take_length] at hfile hread ⊢
      exact findAnchorLoop_found fs root (root ++ (rs ++ [a])) _ raw _ hfile hread
        (relative_string_of_append root (rs ++ [a]) hnorm)
    · have hklt : k ≤ rs.length := by
        simp only [List.length_append, List.length_cons, List.length_nil] at hk hk2
        omega
      have htop : fs.symlinkMeta ((root ++ (rs ++ [a])) ++ [PASSWORD_MARKER_FILE]) =
          .error IOErr.notFound := by
        have := habs (rs ++ [a]).length
          (by simp only [List.length_append, List.length_cons, List.length_nil]; omega)
          (Nat.le_refl _)
        rwa [List.take_length] at this
      have hdrop : (root ++ (rs ++ [a])).dropLast = root ++ rs := by
        rw [← List.append_assoc]; simp
      have hne_root : root ++ (rs ++ [a]) ≠ root := by
        intro h
        have := congrArg List.length h
        simp at this
      have hne_nil : root ++ (rs ++ [a]) ≠ [] := by simp
      rw [findAnchorLoop_absent_step fs root (root ++ (rs ++ [a]))
        ((root ++ (rs ++ [a])).length) htop hne_root hne_nil
        (by rw [hdrop]; exact pathStartsWith_append root rs), hdrop,
        show (root ++ (rs ++ [a])).length = (root ++ rs).length + 1 by
          simp only [List.length_append, List.length_cons, List.length_nil]; omega,
        List.take_append_of_le_length hklt]
      have habs2 : ∀ j, k < j → j ≤ rs.length →
          fs.symlinkMeta ((root ++ rs.take j) ++ [PASSWORD_MARKER_FILE]) =
            .error IOErr.notFound := by
        intro j h1 h2
        have := habs j h1
          (by simp only [List.length_append, List.length_cons, List.length_nil]; omega)
        rwa [List.take_append_of_le_length h2] at this
      have hfile2 : fs.symlinkMeta ((root ++ rs.take k) ++ [PASSWORD_MARKER_FILE]) =
          .ok FileType.file := by
        rwa [List.take_append_of_le_length hklt] at hfile
      have hread2 : fs.readToString ((root ++ rs.take k) ++ [PASSWORD_MARKER_FILE]) =
          .ok raw := by
        rwa [List.take_append_of_le_length hklt] at hread
      exact ih k raw hklt habs2 hfile2 hread2
        (fun s hs => hnorm s (List.mem_append_left [a] hs))

/-- The walk reports no anchor when the marker is absent at every
ancestor-or-self down to the root. -/
theorem findAnchorLoop_allAbsent (fs : FS) (root : List String) :
    ∀ rel : List String,
      (∀ j, j ≤ rel.length →
        fs.symlinkMeta ((root ++ rel.take j) ++ [PASSWORD_MARKER_FILE]) =
          .error IOErr.notFound) →
      findAnchorLoop fs root ((root ++ rel).length + 1) (root ++ rel) = .ok none := by
  intro rel
  induction rel using List.reverseRecOn with
  | nil =>
    intro habs
    have h0 := habs 0 (Nat.zero_le _)
    simp only [List.take_nil, List.append_nil] at h0 ⊢
    exact findAnchorLoop_root_none fs root _ h0
  | append_singleton rs a ih =>
    intro habs
    have htop : fs.symlinkMeta ((root ++ (rs ++ [a])) ++ [PASSWORD_MARKER_FILE]) =
        .error IOErr.notFound := by
      have := habs (rs ++ [a]).length (Nat.le_refl _)
      rwa [List.take_length] at this
    have hdrop : (root ++ (rs ++ [a])).dropLast = root ++ rs := by
      rw [← List.append_assoc]; simp
    have hne_root : root ++ (rs ++ [a]) ≠ root := by
      intro h
      have := congrArg List.length h
      simp at this
    rw [findAnchorLoop_absent_step fs root (root ++ (rs ++ [a]))
      ((root ++ (rs ++ [a])).length) htop hne_root (by simp)
      (by rw [hdrop]; exact pathStartsWith_append root rs), hdrop,
      show (root ++ (rs ++ [a])).length = (root ++ rs).length + 1 by
        simp only [List.length_append, List.length_cons, List.length_nil]; omega]
    refine ih (fun j hj => ?_)
    have := habs j
      (by simp only [List.length_append, List.length_cons, List.length_nil]; omega)
    rwa [List.take_append_of_le_length hj] at this

/-- A tree `root/a/.password` with subdirectory `root/a/b` and no marker on
`b`. -/
def fsC3a : FS where
  symlinkMeta := fun p =>
    if p = ["root"] then .ok FileType.dir
    else if p = ["root", "a"] then .ok FileType.dir
    else if p = ["root", "a", ".password"] then .ok FileType.file
    else if p = ["root", "a", "b"] then .ok FileType.dir
    else .error IOErr.notFound
  statMeta := fun _ => .error IOErr.notFound
  canon := fun p => .ok p
  readToString := fun p =>
    if p = ["root", "a", ".password"] then .ok "pw1\n" else .error IOErr.notFound
  readDir := fun _ => .ok []
  openFile := fun _ => .ok ()
  mimeGuess := fun _ => "application/octet-stream"

/-- The same tree with a nested marker `root/a/b/.password` added. -/
def fsC3b : FS where
  symlinkMeta := fun p =>
    if p = ["root"] then .ok FileType.dir
    else if p = ["root", "a"] then .ok FileType.dir
    else if p = ["root", "a", ".password"] then .ok FileType.file
    else if p = ["root", "a", "b"] then .ok FileType.dir
    else if p = ["root", "a", "b", ".password"] then .ok FileType.file
    else .error IOErr.notFound
  statMeta := fun _ => .error IOErr.notFound
  canon := fun p => .ok p
  readToString := fun p =>
    if p = ["root", "a", ".password"] then .ok "pw1\n"
    else if p = ["root", "a", "b", ".password"] then .ok " pw2 "
    else .error IOErr.notFound
  readDir := fun _ => .ok []
  openFile := fun _ => .ok ()
  mimeGuess := fun _ => "application/octet-stream"

/-- Claim C3: `findAnchor` returns the anchor of the nearest ancestor-or-self
directory carrying a `.password` marker (starting from the target if a
directory, else its parent), with scope the directory's root-relative path and
password the marker's trimmed contents; it returns none when the walk reaches
the root with no marker; and on `root/a/.password` with `root/a/b`, both
resolve to scope `a`, while adding `root/a/b/.password` makes `a/b` resolve to
scope `a/b` (nearest wins). -/
theorem claim_C3 :
    (∀ (fs : FS) (root rel : List String) (k : Nat) (raw : String), k ≤ rel.length →
      (∀ j, k < j → j ≤ rel.length →
        fs.symlinkMeta ((root ++ rel.take j) ++ [PASSWORD_MARKER_FILE]) =
          .error IOErr.notFound) →
      fs.symlinkMeta ((root ++ rel.take k) ++ [PASSWORD_MARKER_FILE]) = .ok FileType.file →
      fs.readToString ((root ++ rel.take k) ++ [PASSWORD_MARKER_FILE]) = .ok raw →
      (∀ s ∈ rel, normalComponent s = true) →
      find_private_anchor fs root (root ++ rel) true =
        .ok (some { scope_rel := joinSlashStr (rel.take k),
                    password := rustTrimString raw,
                    marker_file := PASSWORD_MARKER_FILE })) ∧
    (∀ (fs : FS) (root rel : List String),
      (∀ j, j ≤ rel.length →
        fs.symlinkMeta ((root ++ rel.take j) ++ [PASSWORD_MARKER_FILE]) =
          .error IOErr.notFound) →
      find_private_anchor fs root (root ++ rel) true = .ok none) ∧
    (∀ (fs : FS) (root target : List String),
      pathStartsWith target root = true →
      pathStartsWith ((pathParent target).getD root) root = true →
      find_private_anchor fs root target false =
        find_private_anchor fs root ((pathParent target).getD root) true) ∧
    (find_private_anchor fsC3a ["root"] ["root", "a"] true =
        .ok (some { scope_rel := "a", password := "pw1",
                    marker_file := PASSWORD_MARKER_FILE }) ∧
      find_private_anchor fsC3a ["root"] ["root", "a", "b"] true =
        .ok (some { scope_rel := "a", password := "pw1",
                    marker_file := PASSWORD_MARKER_FILE }) ∧
      find_private_anchor fsC3b ["root"] ["root", "a", "b"] true =
        .ok (some { scope_rel := "a/b", password := "pw2",
                    marker_file := PASSWORD_MARKER_FILE }) ∧
      find_private_anchor fsC3b ["root"] ["root", "a"] true =
        .ok (some { scope_rel := "a", password := "pw1",
                    marker_file := PASSWORD_MARKER_FILE })) := by
  refine ⟨?_, ?_, ?_, by decide, by decide, by decide, by decide⟩
  · intro fs root rel k raw hk habs hfile hread hnorm
    unfold find_private_anchor
    rw [if_neg (by rw [pathStartsWith_append]; simp)]
    simp only [if_true]
    exact findAnchorLoop_nearest fs root rel k raw hk habs hfile hread hnorm
  · intro fs root rel habs
    unfold find_private_anchor
    rw [if_neg (by rw [pathStartsWith_append]; simp)]
    simp only [if_true]
    exact findAnchorLoop_allAbsent fs root rel habs
  · intro fs root target h1 h2
    have hL : find_private_anchor fs root target false =
        findAnchorLoop fs root (((pathParent target).getD root).length + 1)
          ((pathParent target).getD root) := by
      unfold find_private_anchor
      rw [if_neg (by rw [h1]; simp)]
      simp
    have hR : find_private_anchor fs root ((pathParent target).getD root) true =
        findAnchorLoop fs root (((pathParent target).getD root).length + 1)
          ((pathParent target).getD root) := by
      unfold find_private_anchor
      rw [if_neg (by rw [h2]; simp)]
      simp
    rw [hL, hR]

/-- Claim C3 witness at concrete inputs. -/
theorem claim_C3_witness :
    find_private_anchor fsC3b ["root"] (["root"] ++ ["a", "b"]) true =
      .ok (some { scope_rel := joinSlashStr (["a", "b"].take 2),
                  password := rustTrimString " pw2 ",
                  marker_file := PASSWORD_MARKER_FILE }) ∧
    find_private_anchor fsC3a ["root"] (["root"] ++ ["x"]) true = .ok none ∧
    find_private_anchor fsC3b ["root"] ["root", "a", "b", "f.mp4"] false =
      find_private_anchor fsC3b ["root"]
        ((pathParent ["root", "a", "b", "f.mp4"]).getD ["root"]) true :=
  ⟨claim_C3.1 fsC3b ["root"] ["a", "b"] 2 " pw2 " (by decide)
      (fun j h1 h2 => by
        simp only [List.length_append, List.length_cons, List.length_nil] at h2
        omega)
      (by decide) (by decide) (by decide),
    claim_C3.2.1 fsC3a ["root"] ["x"]
      (fun j hj => by
        have hj1 : j ≤ 1 := by simpa using hj
        interval_cases j <;> decide),
    claim_C3.2.2.1 fsC3b ["root"] ["root", "a", "b", "f.mp4"] (by decide) (by decide)⟩

/-! ## Path resolution claim -/

/-- The walk observations before a given segment: every cursor prefix resolves
to an existing non-symlink entry. -/
def cleanSegs (fs : FS) : List String → List String → Bool
  | _, [] => true
  | cursor, seg :: rest =>
    match fs.symlinkMeta (cursor ++ [seg]) with
    | .ok t => !(t == FileType.symlink) && cleanSegs fs (cursor ++ [seg]) rest
    | .error _ => false

/-- The segment walk passes a clean leading run unchanged. -/
theorem walkSegments_of_clean (fs : FS) (pre : List String) :
    ∀ (cursor rest : List String), cleanSegs fs cursor pre = true →
      walkSegments fs cursor (pre ++ rest) = walkSegments fs (cursor ++ pre) rest := by
  induction pre with
  | nil => intro cursor rest _; simp
  | cons s pre ih =>
    intro cursor rest hclean
    unfold cleanSegs at hclean
    cases hm : fs.symlinkMeta (cursor ++ [s]) with
    | error e => rw [hm] at hclean; cases hclean
    | ok t =>
      rw [hm] at hclean
      simp only [Bool.and_eq_true] at hclean
      obtain ⟨h1, h2⟩ := hclean
      have hstep : walkSegments fs cursor (s :: (pre ++ rest)) =
          walkSegments fs (cursor ++ [s]) (pre ++ rest) := by
        conv_lhs => unfold walkSegments
        simp only [hm]
        rw [if_neg (by simpa using h1)]
      calc walkSegments fs cursor ((s :: pre) ++ rest)
          = walkSegments fs (cursor ++ [s]) (pre ++ rest) := hstep
        _ = walkSegments fs ((cursor ++ [s]) ++ pre) rest := ih (cursor ++ [s]) rest h2
        _ = walkSegments fs (cursor ++ s :: pre) rest := by simp

/-- The walk never produces a not-found error unless `symlink_metadata`
reported one. -/
theorem walkSegments_no_notFound (fs : FS)
    (hmeta : ∀ q, fs.symlinkMeta q ≠ .error IOErr.notFound) :
    ∀ (segs cursor : List String) (e : ApiError),
      walkSegments fs cursor segs = .error e → e.isNotFound = false := by
  intro segs
  induction segs with
  | nil => intro cursor e h; simp [walkSegments] at h
  | cons s rest ih =>
    intro cursor e h
    unfold walkSegments at h
    cases hm : fs.symlinkMeta (cursor ++ [s]) with
    | error e2 =>
      simp only [hm] at h
      cases h
      cases e2 with
      | notFound => exact absurd hm (hmeta _)
      | permissionDenied => rfl
      | other => rfl
    | ok t =>
      simp only [hm] at h
      by_cases hts : t = FileType.symlink
      · rw [if_pos hts] at h; cases h; rfl
      · rw [if_neg hts] at h; exact ih _ e h

/-- Claim C1: a symlink at any walked segment makes `resolve` fail forbidden;
a missing entry at any walked segment fails not-found; a canonicalized
candidate outside the root fails forbidden; and when no filesystem probe
reports missing, `resolve` never fails not-found — so symlinks and escapes
never leak existence. -/
theorem claim_C1 :
    (∀ (fs : FS) (root : List String) (p : String) (pre : List String) (s : String)
        (post : List String),
      p ≠ "" → splitSlashStr p = pre ++ s :: post → cleanSegs fs root pre = true →
      fs.symlinkMeta ((root ++ pre) ++ [s]) = .ok FileType.symlink →
      resolve_existing_path fs root p =
        .error (ApiError.forbidden "Symbolic links are not allowed.")) ∧
    (∀ (fs : FS) (root : List String) (p : String) (pre : List String) (s : String)
        (post : List String),
      p ≠ "" → splitSlashStr p = pre ++ s :: post → cleanSegs fs root pre = true →
      fs.symlinkMeta ((root ++ pre) ++ [s]) = .error IOErr.notFound →
      resolve_existing_path fs root p = .error (ApiError.not_found "path not found.")) ∧
    (∀ (fs : FS) (root : List String) (p : String) (t : FileType) (c : List String),
      check_symlink_segments fs root p = .ok () →
      fs.symlinkMeta (if p = "" then root else root ++ splitSlashStr p) = .ok t →
      t ≠ FileType.symlink →
      fs.canon (if p = "" then root else root ++ splitSlashStr p) = .ok c →
      pathStartsWith c root = false →
      resolve_existing_path fs root p =
        .error (ApiError.forbidden "Path escapes configured root directory.")) ∧
    (∀ (fs : FS) (root : List String) (p : String) (e : ApiError),
      (∀ q, fs.symlinkMeta q ≠ .error IOErr.notFound) →
      (∀ q, fs.canon q ≠ .error IOErr.notFound) →
      resolve_existing_path fs root p = .error e → e.isNotFound = false) := by
  refine ⟨?_, ?_, ?_, ?_⟩
  · intro fs root p pre s post hp hsplit hclean hm
    have hchk : check_symlink_segments fs root p =
        .error (ApiError.forbidden "Symbolic links are not allowed.") := by
      unfold check_symlink_segments
      rw [if_neg hp, hsplit, walkSegments_of_clean fs pre root (s :: post) hclean]
      unfold walkSegments
      simp only [hm]
      simp
    unfold resolve_existing_path
    simp only [hchk]
  · intro fs root p pre s post hp hsplit hclean hm
    have hchk : check_symlink_segments fs root p =
        .error (ApiError.not_found "path not found.") := by
      unfold check_symlink_segments
      rw [if_neg hp, hsplit, walkSegments_of_clean fs pre root (s :: post) hclean]
      unfold walkSegments
      simp only [hm]
      rfl
    unfold resolve_existing_path
    simp only [hchk]
  · intro fs root p t c hchk hmeta hts hcanon hps
    unfold resolve_existing_path
    simp only [hchk, hmeta, hcanon]
    rw [if_neg hts, if_neg (by rw [hps]; simp)]
  · intro fs root p e hmeta hcanon hres
    unfold resolve_existing_path at hres
    cases hchk : check_symlink_segments fs root p with
    | error e2 =>
      simp only [hchk] at hres
      cases hres
      unfold check_symlink_segments at hchk
      by_cases hp : p = ""
      · rw [if_pos hp] at hchk; cases hchk
      · rw [if_neg hp] at hchk
        exact walkSegments_no_notFound fs hmeta _ _ _ hchk
    | ok u =>
      simp only [hchk] at hres
      cases hm2 : fs.symlinkMeta (if p = "" then root else root ++ splitSlashStr p) with
      | error e3 =>
        simp only [hm2] at hres
        cases hres
        cases e3 with
        | notFound => exact absurd hm2 (hmeta _)
        | permissionDenied => rfl
        | other => rfl
      | ok t =>
        simp only [hm2] at hres
        by_cases hts : t = FileType.symlink
        · rw [if_pos hts] at hres; cases hres; rfl
        · rw [if_neg hts] at hres
          cases hc : fs.canon (if p = "" then root else root ++ splitSlashStr p) with
          | error e4 =>
            simp only [hc] at hres
            cases hres
            cases e4 with
            | notFound => exact absurd hc (hcanon _)
            | permissionDenied => rfl
            | other => rfl
          | ok c =>
            simp only [hc] at hres
            by_cases hps : pathStartsWith c root = true
            · rw [if_pos hps] at hres; cases hres
            · rw [if_neg hps] at hres; cases hres; rfl

/-- A small tree under root `r`: `a` is a directory, `a/b` a symlink, `a/c`
missing, and `esc` canonicalizes outside the root. -/
def fsC1 : FS where
  symlinkMeta := fun p =>
    if p = ["r"] then .ok FileType.dir
    else if p = ["r", "a"] then .ok FileType.dir
    else if p = ["r", "a", "b"] then .ok FileType.symlink
    else if p = ["r", "esc"] then .ok FileType.dir
    else .error IOErr.notFound
  statMeta := fun _ => .error IOErr.notFound
  canon := fun p => if p = ["r", "esc"] then .ok ["x"] else .ok p
  readToString := fun _ => .error IOErr.notFound
  readDir := fun _ => .ok []
  openFile := fun _ => .ok ()
  mimeGuess := fun _ => "application/octet-stream"

/-- A total filesystem (no entry missing anywhere) with one symlink. -/
def fsC1b : FS where
  symlinkMeta := fun p =>
    if p = ["r", "a", "b"] then .ok FileType.symlink else .ok FileType.dir
  statMeta := fun _ => .ok { ftype := FileType.dir, len := 0, mtime := none }
  canon := fun p => .ok p
  readToString := fun _ => .ok ""
  readDir := fun _ => .ok []
  openFile := fun _ => .ok ()
  mimeGuess := fun _ => "application/octet-stream"

/-- Claim C1 witness at concrete inputs. -/
theorem claim_C1_witness :
    resolve_existing_path fsC1 ["r"] "a/b" =
      .error (ApiError.forbidden "Symbolic links are not allowed.") ∧
    resolve_existing_path fsC1 ["r"] "a/c" =
      .error (ApiError.not_found "path not found.") ∧
    resolve_existing_path fsC1 ["r"] "esc" =
      .error (ApiError.forbidden "Path escapes configured root directory.") ∧
    (ApiError.forbidden "Symbolic links are not allowed.").isNotFound = false :=
  ⟨claim_C1.1 fsC1 ["r"] "a/b" ["a"] "b" [] (by decide) (by decide) (by decide) (by decide),
    claim_C1.2.1 fsC1 ["r"] "a/c" ["a"] "c" [] (by decide) (by decide) (by decide)
      (by decide),
    claim_C1.2.2.1 fsC1 ["r"] "esc" FileType.dir ["x"] (by decide) (by decide) (by decide)
      (by decide) (by decide),
    claim_C1.2.2.2 fsC1b ["r"] "a/b" (ApiError.forbidden "Symbolic links are not allowed.")
      (fun q => by simp only [fsC1b]; split <;> simp)
      (fun q => by simp only [fsC1b]; simp)
      (by decide)⟩

/-! ## Normalization claim -/

theorem dropWhile_dropWhile_self (p : Char → Bool) (l : List Char) :
    List.dropWhile p (List.dropWhile p l) = List.dropWhile p l := by
  cases h : List.dropWhile p l with
  | nil => simp
  | cons c t =>
    have h2 := List.head?_dropWhile_not p l
    rw [h] at h2
    simp only [List.head?_cons] at h2
    exact List.dropWhile_cons_of_neg (by simp [h2])

theorem head?_dropWhile_ws (l : List Char) (c : Char)
    (h : (List.dropWhile isRustWhitespace l).head? = some c) :
    isRustWhitespace c = false := by
  have h2 := List.head?_dropWhile_not isRustWhitespace l
  rw [h] at h2
  exact h2

theorem rustTrimRight_isPre (l : List Char) : rustTrimRight l <+: l := by
  obtain ⟨t, ht⟩ := List.dropWhile_suffix (l := l.reverse) (p := isRustWhitespace)
  exact ⟨t.reverse, by rw [rustTrimRight, ← List.reverse_append, ht, List.reverse_reverse]⟩

theorem getLast?_rustTrimRight_not (l : List Char) (c : Char)
    (h : (rustTrimRight l).getLast? = some c) : isRustWhitespace c = false := by
  unfold rustTrimRight at h
  rw [List.getLast?_reverse] at h
  exact head?_dropWhile_ws l.reverse c h

theorem rustTrimLeft_of_head_not (l : List Char)
    (h : ∀ c, l.head? = some c → isRustWhitespace c = false) :
    rustTrimLeft l = l := by
  cases l with
  | nil => rfl
  | cons c t => exact List.dropWhile_cons_of_neg (by simp [h c rfl])

theorem rustTrimRight_of_getLast_not (l : List Char)
    (h : ∀ c, l.getLast? = some c → isRustWhitespace c = false) :
    rustTrimRight l = l := by
  unfold rustTrimRight
  have hl : List.dropWhile isRustWhitespace l.reverse = l.reverse :=
    rustTrimLeft_of_head_not l.reverse
      (fun c hc => h c (by rwa [List.head?_reverse] at hc))
  rw [hl, List.reverse_reverse]

theorem rustTrimRight_idem (l : List Char) :
    rustTrimRight (rustTrimRight l) = rustTrimRight l :=
  rustTrimRight_of_getLast_not _ (fun c hc => getLast?_rustTrimRight_not l c hc)

theorem head?_rustTrimRight (l : List Char) (h : rustTrimRight l ≠ []) :
    (rustTrimRight l).head? = l.head? := by
  obtain ⟨t, ht⟩ := rustTrimRight_isPre l
  cases hm : rustTrimRight l with
  | nil => exact absurd hm h
  | cons c cs =>
    rw [hm] at ht
    rw [← ht]
    rfl

/-- Rust `str::trim` is idempotent. -/
theorem rustTrim_idem (l : List Char) : rustTrim (rustTrim l) = rustTrim l := by
  unfold rustTrim
  have hleft : rustTrimLeft (rustTrimRight (rustTrimLeft l)) =
      rustTrimRight (rustTrimLeft l) := by
    apply rustTrimLeft_of_head_not
    intro c hc
    have hne : rustTrimRight (rustTrimLeft l) ≠ [] := by
      intro h0; rw [h0] at hc; cases hc
    have hh := head?_rustTrimRight (rustTrimLeft l) hne
    rw [hc] at hh
    exact head?_dropWhile_ws l c hh.symm
  rw [hleft]
  exact rustTrimRight_idem _

theorem splitOnSlash_ne_nil (l : List Char) : splitOnSlash l ≠ [] := by
  cases l with
  | nil => simp [splitOnSlash]
  | cons c t =>
    unfold splitOnSlash
    cases h : splitOnSlash t with
    | nil => simp
    | cons a b => by_cases hc : c = '/' <;> simp [hc]

/-- Rejoining the slash-split with `/` is the identity. -/
theorem joinSegs_splitOnSlash (l : List Char) : joinSegs (splitOnSlash l) = l := by
  induction l with
  | nil => rfl
  | cons c t ih =>
    cases h : splitOnSlash t with
    | nil => exact absurd h (splitOnSlash_ne_nil t)
    | cons seg segs =>
      rw [h] at ih
      unfold splitOnSlash
      simp only [h]
      by_cases hc : c = '/'
      · subst hc
        rw [if_pos rfl]
        show [] ++ '/' :: joinSegs (seg :: segs) = '/' :: t
        simp [ih]
      · rw [if_neg hc]
        cases segs with
        | nil =>
          simp only [joinSegs] at ih ⊢
          rw [ih]
        | cons s2 rest =>
          show (c :: seg) ++ '/' :: joinSegs (s2 :: rest) = c :: t
          have ih2 : seg ++ '/' :: joinSegs (s2 :: rest) = t := ih
          simp [← ih2]

theorem checkSegments_ok (segs : List (List Char))
    (h : ∀ seg ∈ segs, badSeg seg = false) : checkSegments segs = .ok segs := by
  induction segs with
  | nil => rfl
  | cons s rest ih =>
    have hs := h s (List.mem_cons_self s rest)
    simp only [badSeg, Bool.or_eq_false_iff, decide_eq_false_iff_not] at hs
    obtain ⟨⟨⟨h1, h2⟩, h3⟩, h4⟩ := hs
    unfold checkSegments
    rw [if_neg (by simp [h1, h2, h3]), if_neg (by simp [h4]),
      ih (fun seg hmem => h seg (List.mem_cons_of_mem s hmem))]

theorem checkSegments_error (segs : List (List Char))
    (h : ∃ seg ∈ segs, badSeg seg = true) : ∃ e, checkSegments segs = .error e := by
  induction segs with
  | nil => obtain ⟨seg, hmem, _⟩ := h; exact absurd hmem (List.not_mem_nil seg)
  | cons s rest ih =>
    unfold checkSegments
    by_cases h1 : (s = [] || s = ['.'] || s = ['.', '.']) = true
    · rw [if_pos h1]; exact ⟨_, rfl⟩
    · rw [if_neg h1]
      by_cases h2 : s.any isRustControl = true
      · rw [if_pos h2]; exact ⟨_, rfl⟩
      · rw [if_neg h2]
        have hsgood : badSeg s = false := by
          simp only [badSeg]
          simp only [Bool.or_eq_true, decide_eq_true_eq] at h1 h2 ⊢
          simp [h1, h2]
          tauto
        obtain ⟨seg, hmem, hbad⟩ := h
        rcases List.mem_cons.mp hmem with heq | hmem2
        · subst heq; rw [hsgood] at hbad; cases hbad
        · obtain ⟨e, he⟩ := ih ⟨seg, hmem2, hbad⟩
          rw [he]
          exact ⟨e, rfl⟩

/-- Claim C2: `normalize` trims whitespace; empty, `/`, or absent input gives
the empty path; a (trimmed, non-root) input starting with `/` or containing a
backslash fails; any empty, `.`, `..`, or control-character segment fails; and
otherwise the segments rejoined with `/` — the trimmed input itself — are
returned, so `movies/2026/trailer.mp4` is returned unchanged. -/
theorem claim_C2 :
    (∀ s : List Char, normalize_relative_path (some s) =
      normalize_relative_path (some (rustTrim s))) ∧
    (normalize_relative_path none = .ok [] ∧
      normalize_relative_path (some "".data) = .ok [] ∧
      normalize_relative_path (some "/".data) = .ok []) ∧
    (∀ p : List Char, rustTrim p = p → p ≠ ['/'] →
      p.head? = some '/' ∨ p.contains '\\' = true →
      ∃ e, normalize_relative_path (some p) = .error e) ∧
    (∀ p : List Char, rustTrim p = p → p ≠ [] → p ≠ ['/'] →
      (∃ seg ∈ splitOnSlash p, badSeg seg = true) →
      ∃ e, normalize_relative_path (some p) = .error e) ∧
    (∀ p : List Char, rustTrim p = p → p ≠ [] → p ≠ ['/'] →
      p.head? ≠ some '/' → p.contains '\\' = false →
      (∀ seg ∈ splitOnSlash p, badSeg seg = false) →
      normalize_relative_path (some p) = .ok p) ∧
    normalize_relative_path (some "movies/2026/trailer.mp4".data) =
      .ok "movies/2026/trailer.mp4".data := by
  refine ⟨?_, ⟨by decide, by decide, by decide⟩, ?_, ?_, ?_, by decide⟩
  · intro s
    unfold normalize_relative_path
    simp only [Option.getD_some, rustTrim_idem]
  · intro p htrim hroot hcase
    have hne : p ≠ [] := by
      rcases hcase with h | h
      · intro hnil; rw [hnil] at h; cases h
      · intro hnil; rw [hnil] at h; cases h
    unfold normalize_relative_path
    simp only [Option.getD_some, htrim]
    rw [if_neg (by simp [hne, hroot])]
    rcases hcase with h | h
    · rw [if_pos h]; exact ⟨_, rfl⟩
    · by_cases hh : p.head? = some '/'
      · rw [if_pos hh]; exact ⟨_, rfl⟩
      · rw [if_neg hh, if_pos h]; exact ⟨_, rfl⟩
  · intro p htrim hne hroot hbad
    unfold normalize_relative_path
    simp only [Option.getD_some, htrim]
    rw [if_neg (by simp [hne, hroot])]
    by_cases hh : p.head? = some '/'
    · rw [if_pos hh]; exact ⟨_, rfl⟩
    rw [if_neg hh]
    by_cases hbs : p.contains '\\' = true
    · rw [if_pos hbs]; exact ⟨_, rfl⟩
    rw [if_neg hbs]
    obtain ⟨e, he⟩ := checkSegments_error (splitOnSlash p) hbad
    rw [he]
    exact ⟨e, rfl⟩
  · intro p htrim hne hroot hh hbs hgood
    unfold normalize_relative_path
    simp only [Option.getD_some, htrim]
    rw [if_neg (by simp [hne, hroot]), if_neg hh,
      if_neg (show ¬p.contains '\\' = true by rw [hbs]; simp)]
    simp only [checkSegments_ok (splitOnSlash p) hgood, joinSegs_splitOnSlash]

/-- Claim C2 witness at concrete inputs. -/
theorem claim_C2_witness :
    normalize_relative_path (some "  movies/a ".data) =
      normalize_relative_path (some (rustTrim "  movies/a ".data)) ∧
    (∃ e, normalize_relative_path (some "a\\b".data) = .error e) ∧
    (∃ e, normalize_relative_path (some "a/../b".data) = .error e) ∧
    normalize_relative_path (some "x/y.txt".data) = .ok "x/y.txt".data :=
  ⟨claim_C2.1 "  movies/a ".data,
    claim_C2.2.2.1 "a\\b".data (by decide) (by decide) (Or.inr (by decide)),
    claim_C2.2.2.2.1 "a/../b".data (by decide) (by decide) (by decide)
      ⟨"..".data, by decide, by decide⟩,
    claim_C2.2.2.2.2.1 "x/y.txt".data (by decide) (by decide) (by decide) (by decide)
      (by decide) (by decide)⟩

/-! ## Content-disposition claim -/

/-- Modelled from the words of claim C9, for comparison with the code: a
fallback that is exactly the per-character replacement, with "file"
substituted only when the trimmed result is empty — the nonempty result is
left untrimmed. -/
def claimedFallback (raw_name : List Char) : List Char :=
  let out := raw_name.map fallbackChar
  if rustTrim out = [] then "file".data else out

/-- Claim C9 counterexample: on `" a"` the code's fallback is the trimmed
`"a"`, while the claim's pure per-character description yields `" a"`. -/
theorem claim_C9_counterexample :
    ascii_filename_fallback " a".data ≠ claimedFallback " a".data ∧
    claimedFallback " a".data = " a".data ∧
    ascii_filename_fallback " a".data = "a".data := by decide

/-- Claim C9 (amended): the ASCII fallback replaces each non-ASCII, control,
quote, or backslash character with `_` (whitespace becomes a space), then
trims leading and trailing whitespace, substituting "file" if the trimmed
result is empty; the extended form percent-encodes every UTF-8 byte outside
the attribute-char allowlist as uppercase `%XX`; and
`encode("你好 字幕.ass")` yields fallback `"__ __.ass"` and extended form
`%E4%BD%A0%E5%A5%BD%20%E5%AD%97%E5%B9%95.ass`. -/
theorem claim_C9 :
    (∀ c : Char, 0x80 ≤ c.toNat ∨ isRustControl c = true ∨ c = '"' ∨ c = '\\' →
      fallbackChar c = (if isRustWhitespace c then ' ' else '_')) ∧
    (∀ c : Char, c.toNat < 0x80 → isRustControl c = false → c ≠ '"' → c ≠ '\\' →
      fallbackChar c = c) ∧
    (∀ s : List Char, ascii_filename_fallback s =
      (if rustTrim (s.map fallbackChar) = [] then "file".data
       else rustTrim (s.map fallbackChar))) ∧
    (∀ b : Nat, is_rfc5987_attr_char b = true → rfc5987Byte b = [Char.ofNat b]) ∧
    (∀ b : Nat, is_rfc5987_attr_char b = false →
      rfc5987Byte b = ['%', to_hex_upper (b / 16), to_hex_upper (b % 16)]) ∧
    (∀ n : Nat, n < 16 →
      (to_hex_upper n).toNat = if n ≤ 9 then 0x30 + n else 0x41 + (n - 10)) ∧
    (∀ s : List Char, rfc5987_encode s = (s.flatMap utf8Bytes).flatMap rfc5987Byte) ∧
    ascii_filename_fallback "你好 字幕.ass".data = "__ __.ass".data ∧
    rfc5987_encode "你好 字幕.ass".data =
      "%E4%BD%A0%E5%A5%BD%20%E5%AD%97%E5%B9%95.ass".data := by
  refine ⟨?_, ?_, ?_, ?_, ?_, by decide, fun _ => rfl, by decide, by decide⟩
  · intro c hc
    rcases hc with h | h | h | h
    · simp [fallbackChar, show ¬c.toNat < 0x80 by omega]
    · simp [fallbackChar, h]
    · subst h; decide
    · subst h; decide
  · intro c h1 h2 h3 h4
    simp [fallbackChar, h1, h2, h3, h4]
  · intro s; rfl
  · intro b hb; simp [rfc5987Byte, hb]
  · intro b hb; simp [rfc5987Byte, hb]

/-- Claim C9 witness at concrete inputs. -/
theorem claim_C9_witness :
    fallbackChar 'x' = 'x' ∧ fallbackChar '\t' = ' ' ∧
    rfc5987Byte 0x20 = ['%', to_hex_upper 2, to_hex_upper 0] :=
  ⟨claim_C9.2.1 'x' (by decide) (by decide) (by decide) (by decide),
    by
      have := claim_C9.1 '\t' (Or.inr (Or.inl (by decide)))
      simpa using this,
    claim_C9.2.2.2.2.1 0x20 (by decide)⟩

/-! ## Marker-path and listing claims -/

/-- A request path whose final slash-separated piece is a reserved marker name
is rejected by `ensure_not_marker_path` with the not-found error. -/
theorem ensure_marker_errors (p : String)
    (hm : is_private_marker_name ((splitSlashStr p).getLast?.getD "") = true) :
    ensure_not_marker_path p = .error (ApiError.not_found "File not found.") := by
  unfold ensure_not_marker_path
  cases hl : (splitSlashStr p).getLast? with
  | none => rw [hl] at hm; exact absurd hm (by decide)
  | some name =>
    rw [hl] at hm
    simp only [Option.getD_some] at hm
    simp only [hm]
    rfl

/-- Claim C8: every request whose (well-formed) path ends in `.password` or
`.private` is rejected by the list, file (query and direct), and login
handlers with the not-found error, independent of whether the marker exists —
so marker existence is never distinguishable from absence. -/
theorem claim_C8 :
    ∀ (fs : FS) (root : List String) (session : Option SessionData)
      (range_header : Option String) (q : Option String) (raw : String)
      (ttl mf bs now : Nat) (sessions : SessionMap) (limiter : AttemptMap)
      (client_ip : String) (current_sid : Option String) (fresh_id : String) (pw : String)
      (chars : List Char),
      is_private_marker_name ((splitSlashStr (String.mk chars)).getLast?.getD "") = true →
      (normalize_relative_path (q.map String.data) = .ok chars →
        list_handler fs root session q = .error (ApiError.not_found "File not found.") ∧
        file_handler fs root session range_header q =
          .error (ApiError.not_found "File not found.")) ∧
      (normalize_relative_path (some raw.data) = .ok chars →
        direct_file_handler fs root session range_header raw =
          .error (ApiError.not_found "File not found.") ∧
        (login_handler fs root ttl mf bs sessions limiter now client_ip current_sid
            fresh_id { path := raw, password := pw }).result =
          .error (ApiError.not_found "File not found.")) := by
  intro fs root session range_header q raw ttl mf bs now sessions limiter client_ip
    current_sid fresh_id pw chars hmarker
  have hens := ensure_marker_errors (String.mk chars) hmarker
  constructor
  · intro hq
    constructor
    · unfold list_handler
      simp only [hq, hens]
    · unfold file_handler serve_file_response
      simp only [hq, hens]
  · intro hraw
    constructor
    · unfold direct_file_handler serve_file_response
      simp only [hraw, hens]
    · unfold login_handler
      simp only [hraw, hens]

/-- A filesystem with only an empty root directory, for concrete evaluation. -/
def fsW8 : FS where
  symlinkMeta := fun p => if p = ["r"] then .ok FileType.dir else .error IOErr.notFound
  statMeta := fun p =>
    if p = ["r"] then .ok { ftype := FileType.dir, len := 0, mtime := none }
    else .error IOErr.notFound
  canon := fun p => .ok p
  readToString := fun _ => .error IOErr.notFound
  readDir := fun _ => .ok []
  openFile := fun _ => .ok ()
  mimeGuess := fun _ => "application/octet-stream"

/-- Claim C8 witness at concrete inputs. -/
theorem claim_C8_witness :
    list_handler fsW8 ["r"] none (some "a/.password") =
      .error (ApiError.not_found "File not found.") ∧
    file_handler fsW8 ["r"] none none (some "a/.password") =
      .error (ApiError.not_found "File not found.") ∧
    direct_file_handler fsW8 ["r"] none none "a/.password" =
      .error (ApiError.not_found "File not found.") ∧
    (login_handler fsW8 ["r"] 60 3 60 (fun _ => none) (fun _ => none) 0 "ip" none "f"
        { path := "a/.password", password := "x" }).result =
      .error (ApiError.not_found "File not found.") := by
  have h := claim_C8 fsW8 ["r"] none none (some "a/.password") "a/.password" 60 3 60 0
    (fun _ => none) (fun _ => none) "ip" none "f" "x" "a/.password".data (by decide)
  have h1 := h.1 (by decide)
  have h2 := h.2 (by decide)
  exact ⟨h1.1, h1.2, h2.1, h2.2⟩

/-- Claim C10: a successful `list_handler` response always carries top-level
`authorized = true`; an unauthorized gated directory fails with auth-required
instead of producing a response. -/
theorem claim_C10 :
    ∀ (fs : FS) (root : List String) (session : Option SessionData)
      (q : Option String) (r : ListResponse),
      list_handler fs root session q = .ok r → r.authorized = true := by
  intro fs root session q r hr
  unfold list_handler at hr
  cases hn : normalize_relative_path (q.map String.data) with
  | error e => simp only [hn] at hr; cases hr
  | ok relChars =>
    simp only [hn] at hr
    cases he : ensure_not_marker_path (String.mk relChars) with
    | error e => simp only [he] at hr; cases hr
    | ok u =>
      simp only [he] at hr
      cases hres : resolve_existing_path fs root (String.mk relChars) with
      | error e => simp only [hres] at hr; cases hr
      | ok resolved =>
        simp only [hres] at hr
        cases hmeta : fs.statMeta resolved with
        | error e => simp only [hmeta] at hr; cases hr
        | ok metadata =>
          simp only [hmeta] at hr
          by_cases hdir : metadata.ftype ≠ FileType.dir
          · rw [if_pos hdir] at hr; cases hr
          rw [if_neg hdir] at hr
          cases hanchor : find_private_anchor fs root resolved true with
          | error e => simp only [hanchor] at hr; cases hr
          | ok anchor =>
            simp only [hanchor] at hr
            split at hr
            · cases hr
            cases hnames : fs.readDir resolved with
            | error e => simp only [hnames] at hr; cases hr
            | ok names =>
              simp only [hnames] at hr
              cases hentries : list_entries fs root session (String.mk relChars) resolved
                  names with
              | error e => simp only [hentries] at hr; cases hr
              | ok entries =>
                simp only [hentries] at hr
                cases hr
                rfl

/-- A gated subtree for concrete evaluation: `r/a` carries `r/a/.password`. -/
def fsW10 : FS where
  symlinkMeta := fun p =>
    if p = ["r"] then .ok FileType.dir
    else if p = ["r", "a"] then .ok FileType.dir
    else if p = ["r", "a", ".password"] then .ok FileType.file
    else .error IOErr.notFound
  statMeta := fun p =>
    if p = ["r"] then .ok { ftype := FileType.dir, len := 0, mtime := none }
    else if p = ["r", "a"] then .ok { ftype := FileType.dir, len := 0, mtime := none }
    else .error IOErr.notFound
  canon := fun p => .ok p
  readToString := fun p =>
    if p = ["r", "a", ".password"] then .ok "secret" else .error IOErr.notFound
  readDir := fun p => if p = ["r", "a"] then .ok [] else .ok ["a"]
  openFile := fun _ => .ok ()
  mimeGuess := fun _ => "application/octet-stream"

/-- Claim C10 witness: a concrete successful listing (of the gated directory
`a` by an authorized session) carries `authorized = true`. -/
theorem claim_C10_witness :
    list_handler fsW10 ["r"] (some { scopes := ["a"], expires_at := 100 }) (some "a") =
      .ok { path := "a", entries := [], requires_auth := true, authorized := true } ∧
    ({ path := "a", entries := [], requires_auth := true,
        authorized := true } : ListResponse).authorized = true :=
  ⟨by decide,
    claim_C10 fsW10 ["r"] (some { scopes := ["a"], expires_at := 100 }) (some "a")
      { path := "a", entries := [], requires_auth := true, authorized := true } (by decide)⟩

/-! ## Authorization and session claims -/

/-- Claim C4: a request is authorized for scope `s` iff a valid (unexpired)
session exists and `s` is a member of its scope set, with membership being
exact string equality (no prefix matching): a session holding scope
`movies/private` is not authorized for `movies/private/extra`. -/
theorem claim_C4 :
    (∀ (m : SessionMap) (sid : String) (now : Nat) (s : String),
      is_scope_authorized (get_valid m sid now).1 s = true ↔
        ∃ rec, m sid = some rec ∧ now < rec.expires_at ∧ s ∈ rec.scopes) ∧
    is_scope_authorized
      (some { scopes := ["movies/private"], expires_at := 100 }) "movies/private/extra"
      = false ∧
    is_scope_authorized
      (some { scopes := ["movies/private"], expires_at := 100 }) "movies/private" = true := by
  refine ⟨?_, by decide, by decide⟩
  intro m sid now s
  unfold get_valid is_scope_authorized
  cases hm : m sid with
  | none => simp
  | some rec =>
    by_cases hexp : rec.expires_at > now <;>
      simp [hexp, List.contains, List.elem_iff]

/-- Claim C4 witness at concrete inputs. -/
theorem claim_C4_witness :
    is_scope_authorized
        (get_valid (fun k => if k = "sid1" then
          some { scopes := ["movies/private"], expires_at := 100 } else none) "sid1" 10).1
        "movies/private" = true :=
  (claim_C4.1 _ "sid1" 10 "movies/private").2
    ⟨{ scopes := ["movies/private"], expires_at := 100 }, rfl, by decide, by decide⟩

/-- A `record_failure` call that stays within the allowance: the count goes up
by one and no deadline is returned. -/
theorem record_failure_increment (mf bs : Nat) (m : AttemptMap) (key : String) (now f : Nat)
    (hentry : (m key).getD { failures := 0, blocked_until := none } =
      { failures := f, blocked_until := none })
    (hlt : f + 1 < mf) (hbound : f + 1 ≤ u32Max) :
    (record_failure mf bs m key now).1 = none ∧
    (record_failure mf bs m key now).2 key =
      some { failures := f + 1, blocked_until := none } := by
  have hsat : satAdd32 f 1 = f + 1 := by unfold satAdd32; omega
  unfold record_failure recordFailureStep
  simp only [hentry, hsat]
  rw [if_neg (by omega)]
  exact ⟨rfl, by simp⟩

/-- A `record_failure` call that reaches the configured maximum: the deadline
`now + blockSeconds` is set and returned, and the count resets to zero. -/
theorem record_failure_trigger (mf bs : Nat) (m : AttemptMap) (key : String) (now f : Nat)
    (hentry : (m key).getD { failures := 0, blocked_until := none } =
      { failures := f, blocked_until := none })
    (hge : mf ≤ f + 1) (hbound : f + 1 ≤ u32Max) :
    (record_failure mf bs m key now).1 = some (satAdd64 now bs) ∧
    (record_failure mf bs m key now).2 key =
      some { failures := 0, blocked_until := some (satAdd64 now bs) } := by
  have hsat : satAdd32 f 1 = f + 1 := by unfold satAdd32; omega
  unfold record_failure recordFailureStep
  simp only [hentry, hsat]
  rw [if_pos (by omega)]
  exact ⟨rfl, by simp⟩

/-- A full burst of consecutive failures for one key: with `f` failures already
on record and `f + ts.length + 1 = max_failures`, every call at the times `ts`
returns none and the final call at `tn` returns the block deadline, resetting
the count. -/
theorem repeatedFailures_burst (mf bs : Nat) (key : String) :
    ∀ (ts : List Nat) (m : AttemptMap) (f : Nat),
      (m key).getD { failures := 0, blocked_until := none } =
        { failures := f, blocked_until := none } →
      f + ts.length + 1 = mf → mf ≤ u32Max →
      ∀ tn, (repeatedFailures mf bs m key (ts ++ [tn])).1 =
          ts.map (fun _ => (none : Option Nat)) ++ [some (satAdd64 tn bs)] ∧
        (repeatedFailures mf bs m key (ts ++ [tn])).2 key =
          some { failures := 0, blocked_until := some (satAdd64 tn bs) } := by
  intro ts
  induction ts with
  | nil =>
    intro m f hentry hcount hmax tn
    simp only [List.length_nil] at hcount
    have step := record_failure_trigger mf bs m key tn f hentry (by omega) (by omega)
    have hreq : repeatedFailures mf bs m key ([] ++ [tn]) =
        ((record_failure mf bs m key tn).1 :: [], (record_failure mf bs m key tn).2) := rfl
    rw [hreq, step.1]
    exact ⟨by simp, by rw [step.2]⟩
  | cons t ts ih =>
    intro m f hentry hcount hmax tn
    simp only [List.length_cons] at hcount
    have step := record_failure_increment mf bs m key t f hentry (by omega) (by omega)
    have ihres := ih (record_failure mf bs m key t).2 (f + 1)
      (by rw [step.2]; rfl) (by omega) hmax tn
    have hreq : repeatedFailures mf bs m key ((t :: ts) ++ [tn]) =
        ((record_failure mf bs m key t).1 ::
          (repeatedFailures mf bs (record_failure mf bs m key t).2 key (ts ++ [tn])).1,
         (repeatedFailures mf bs (record_failure mf bs m key t).2 key (ts ++ [tn])).2) := rfl
    rw [hreq, step.1, ihres.1]
    exact ⟨by simp, ihres.2⟩

/-- Claim C6: for `max_failures >= 1`, `recordFailure` returns none on each of
the first `max_failures - 1` consecutive failures and the deadline
`now + blockSeconds` on the last, resetting the count to zero; a future block
deadline is returned unchanged without incrementing; `recordSuccess` deletes
the entry; and `blockedUntil` after the deadline clears the block and resets
the count. -/
theorem claim_C6 :
    (∀ (mf bs : Nat) (key : String) (ts : List Nat) (tn : Nat) (m : AttemptMap),
      1 ≤ mf → mf ≤ u32Max → tn + bs ≤ u64Max → m key = none → ts.length = mf - 1 →
        (repeatedFailures mf bs m key (ts ++ [tn])).1 =
          ts.map (fun _ => (none : Option Nat)) ++ [some (tn + bs)] ∧
        (repeatedFailures mf bs m key (ts ++ [tn])).2 key =
          some { failures := 0, blocked_until := some (tn + bs) }) ∧
    (∀ (mf bs : Nat) (m : AttemptMap) (key : String) (now f u : Nat),
      m key = some { failures := f, blocked_until := some u } → now < u →
        (record_failure mf bs m key now).1 = some u ∧
        (record_failure mf bs m key now).2 key =
          some { failures := f, blocked_until := some u }) ∧
    (∀ (m : AttemptMap) (key : String), record_success m key key = none) ∧
    (∀ (m : AttemptMap) (key : String) (now f u : Nat),
      m key = some { failures := f, blocked_until := some u } → u ≤ now →
        (blocked_until m key now).1 = none ∧
        (blocked_until m key now).2 key =
          some { failures := 0, blocked_until := none }) := by
  refine ⟨?_, ?_, ?_, ?_⟩
  · intro mf bs key ts tn m hmf hmax hsum hnone hlen
    have hsat : satAdd64 tn bs = tn + bs := by
      unfold satAdd64; unfold u64Max at hsum ⊢; omega
    have := repeatedFailures_burst mf bs key ts m 0 (by rw [hnone]; rfl) (by omega) hmax tn
    rw [hsat] at this
    exact this
  · intro mf bs m key now f u hm hfuture
    unfold record_failure
    simp only [hm, Option.getD_some]
    rw [if_pos (show u > now by omega)]
    exact ⟨rfl, by simp⟩
  · intro m key
    unfold record_success
    simp
  · intro m key now f u hm hpast
    unfold blocked_until
    simp only [hm]
    rw [if_neg (show ¬u > now by omega)]
    exact ⟨rfl, by simp⟩

/-- Claim C6 witness at concrete inputs (`max_failures = 2`,
`block_seconds = 10`). -/
theorem claim_C6_witness :
    ((repeatedFailures 2 10 (fun _ => none) "ip:a" ([5] ++ [6])).1 =
        [5].map (fun _ => (none : Option Nat)) ++ [some 16] ∧
      (repeatedFailures 2 10 (fun _ => none) "ip:a" ([5] ++ [6])).2 "ip:a" =
        some { failures := 0, blocked_until := some 16 }) ∧
    (record_success (fun _ => some { failures := 1, blocked_until := none }) "ip:a" "ip:a"
      = none) ∧
    ((blocked_until (fun _ => some { failures := 0, blocked_until := some 16 }) "ip:a" 20).1
        = none ∧
      (blocked_until (fun _ => some { failures := 0, blocked_until := some 16 }) "ip:a" 20).2
        "ip:a" = some { failures := 0, blocked_until := none }) :=
  ⟨claim_C6.1 2 10 "ip:a" [5] 6 (fun _ => none) (by decide) (by decide) (by decide) rfl rfl,
    claim_C6.2.2.1 _ "ip:a",
    claim_C6.2.2.2 _ "ip:a" 20 0 16 rfl (by decide)⟩

/-- Claim C5: `get_valid` returns none and deletes the record whenever the
record has expired (`expiresAt <= now`), and `create_or_update` called with an
expired (hence swept) existing id mints the fresh id instead of reusing the
expired one, giving a record whose scope set is exactly the inserted scope and
whose expiry is `now + ttlSeconds`. -/
theorem claim_C5 :
    (∀ (m : SessionMap) (sid : String) (now : Nat) (rec : SessionData),
      m sid = some rec → rec.expires_at ≤ now →
        (get_valid m sid now).1 = none ∧ (get_valid m sid now).2 sid = none) ∧
    (∀ (m : SessionMap) (existing scope fresh_id : String) (ttl now : Nat)
        (rec : SessionData),
      m existing = some rec → rec.expires_at ≤ now → m fresh_id = none →
      now + ttl ≤ u64Max →
        (create_or_update m (some existing) scope ttl now fresh_id).1 = fresh_id ∧
        (create_or_update m (some existing) scope ttl now fresh_id).2.1 =
          { scopes := [scope], expires_at := now + ttl } ∧
        (create_or_update m (some existing) scope ttl now fresh_id).2.2 fresh_id =
          some { scopes := [scope], expires_at := now + ttl }) := by
  constructor
  · intro m sid now rec hm hexp
    unfold get_valid
    simp only [hm]
    rw [if_neg (by omega)]
    exact ⟨rfl, by simp⟩
  · intro m existing scope fresh_id ttl now rec hm hexp hfresh hbound
    have hnot : ¬rec.expires_at > now := by omega
    have hsat : satAdd64 now ttl = now + ttl := by
      unfold satAdd64; unfold u64Max at hbound ⊢; omega
    have hswept_ex : sweepExpired m now existing = none := by
      unfold sweepExpired; simp only [hm]; rw [if_neg hnot]
    have hswept_fresh : sweepExpired m now fresh_id = none := by
      unfold sweepExpired; simp only [hfresh]
    unfold create_or_update
    simp only [hswept_ex, hswept_fresh, Option.isSome_none, Option.getD_none, hsat]
    refine ⟨by simp, ?_, ?_⟩ <;> simp [insertScope, hswept_fresh]

/-- Claim C5 witness at concrete inputs. -/
theorem claim_C5_witness :
    ((get_valid (fun k => if k = "old" then some { scopes := ["a"], expires_at := 5 }
        else none) "old" 5).1 = none ∧
      (get_valid (fun k => if k = "old" then some { scopes := ["a"], expires_at := 5 }
        else none) "old" 5).2 "old" = none) ∧
    (create_or_update (fun k => if k = "old" then some { scopes := ["a"], expires_at := 5 }
        else none) (some "old") "a" 10 5 "new").1 = "new" ∧
    (create_or_update (fun k => if k = "old" then some { scopes := ["a"], expires_at := 5 }
        else none) (some "old") "a" 10 5 "new").2.1 =
      { scopes := ["a"], expires_at := 15 } ∧
    (create_or_update (fun k => if k = "old" then some { scopes := ["a"], expires_at := 5 }
        else none) (some "old") "a" 10 5 "new").2.2 "new" =
      some { scopes := ["a"], expires_at := 15 } :=
  ⟨claim_C5.1 _ "old" 5 { scopes := ["a"], expires_at := 5 } rfl (by decide),
    claim_C5.2 _ "old" "a" "new" 10 5 { scopes := ["a"], expires_at := 5 } rfl (by decide)
      rfl (by decide)⟩
